import Mathlib

/-!
Verification of the AI Crop Doctor front-end scripts.

This file gives a shallow embedding of the three source files of the
repository — the emergency-form handler, the Firebase sign-in glue
(`static/js/auth.js`) and the client-side translation layer
(`static/js/language.js`) — and proves the testable properties stated in the
specification about them.

Modelling conventions:
* DOM text nodes and elements are records carrying the fields the scripts
  inspect (value, parent tag, `data-no-translate` flags, attribute maps).
  Node/element identity is a `Nat` label.
* JavaScript objects used as string maps (the translation cache, the
  captured original attribute values) are association lists with
  first-occurrence lookup and in-place update, matching object semantics.
* JavaScript truthiness of a possibly-missing string (`undefined`, `''`)
  is `truthyOpt`.
* `String.prototype.trim` is modelled by `jsTrim` (drop leading/trailing
  whitespace characters); the exact ECMAScript whitespace set is irrelevant
  to the theorems, only that the same predicate is used throughout.
* Backend calls (`fetch('/translate')`) are an oracle argument: a function
  from the request to the HTTP response.  Await points introduce no
  interleaving in the model, matching the single-threaded, no-concurrent-
  mutation reading of the scripts.
-/

set_option maxHeartbeats 1000000
set_option maxRecDepth 4000


/-! ## JavaScript-flavoured basics -/
/-- Truthiness of a possibly-absent string: `undefined`/`null` and `''` are
falsy, every other string is truthy. -/
def truthyOpt : Option String → Bool
  | some s => s != ""
  | none => false

/-- Association-list lookup (first occurrence wins), modelling JS object
property access. -/
def alookup {κ : Type} [DecidableEq κ] {β : Type} : List (κ × β) → κ → Option β
  | [], _ => none
  | (k, v) :: t, q => if k = q then some v else alookup t q

/-- Association-list update (first occurrence updated in place, insertion at
the end otherwise), modelling JS object property assignment. -/
def aset {κ : Type} [DecidableEq κ] {β : Type} : List (κ × β) → κ → β → List (κ × β)
  | [], q, w => [(q, w)]
  | (k, v) :: t, q, w => if k = q then (q, w) :: t else (k, v) :: aset t q w

/-! ## `jsTrim`: the `String.prototype.trim` model -/
/-- Characters removed by the modelled `trim` (a representative subset of the
ECMAScript whitespace set; the theorems depend only on a fixed predicate
being used consistently). -/
def jsWhitespace (c : Char) : Bool :=
  c == ' ' || c == '\t' || c == '\n' || c == '\r' || c == '\x0b' || c == '\x0c'

/-- Trim a character list at both ends. -/
def trimList (l : List Char) : List Char :=
  ((l.dropWhile jsWhitespace).reverse.dropWhile jsWhitespace).reverse

/-- Model of `String.prototype.trim`. -/
def jsTrim (s : String) : String := String.mk (trimList s.data)

/-! ## First-occurrence dedup, modelling `Array.from(new Set(xs))` -/
/-- `Array.from(new Set(xs))`: keep the first occurrence of each element,
in order. -/
def jsSetDedup (l : List String) : List String :=
  l.foldl (fun acc t => if t ∈ acc then acc else acc ++ [t]) []

/-! ## Chunking, modelling the `for (let i = 0; i < missing.length; i += CHUNK)`
slice loop with `CHUNK = 80` -/
/-- Fuel-driven chunker; the fuel is instantiated with the list length, which
always suffices. -/
def chunksOfAux : Nat → List String → List (List String)
  | 0, _ => []
  | _ + 1, [] => []
  | fuel + 1, a :: t => ((a :: t).take 80) :: chunksOfAux fuel ((a :: t).drop 80)

/-- `missing.slice(i, i + 80)` for `i = 0, 80, 160, ...`: the consecutive
80-element slices of the list. -/
def chunks80 (l : List String) : List (List String) := chunksOfAux l.length l

/-! ## Emergency form handler

Embedding of the `emergencyForm` submit handler.  The input is the
`userImage.files` list (file sizes in bytes); a missing file input behaves
like an empty list.  `size / 1024 / 1024` divides by the power of two
`2^20`, which is exact in IEEE binary floating point for integer sizes, so
the comparison is modelled exactly over `ℚ`. -/
/-- What the submit handler did before/at the network boundary: whether the
"Image size must be less than 2 MB" alert fired, and whether the
`POST /emergency` fetch was issued. -/
structure SubmitResult where
  sizeAlerted : Bool
  fetchIssued : Bool
deriving DecidableEq, Repr

/-- The `emergencyForm` submit handler, up to the point where the
`/emergency` request is issued: if a file is selected and
`size/1024/1024 > 2`, alert and return; otherwise build the form data and
issue the fetch. -/
def emergencySubmit (files : List Nat) : SubmitResult :=
  match files with
  | size :: _ =>
    if ((size : ℚ) / 1024 / 1024) > 2 then { sizeAlerted := true, fetchIssued := false }
    else { sizeAlerted := false, fetchIssued := true }
  | [] => { sizeAlerted := false, fetchIssued := true }

/-! ## Firebase sign-in glue (`static/js/auth.js`) -/
/-- A signed-in Firebase user as consumed by the script. -/
structure AuthUser where
  displayName : String
  photoURL : Option String
deriving Repr

/-- Page state touched by `auth.js`: the login frame / main content
visibility, the avatar and user-name widgets, and the alerts shown so far.
The `has*` flags model the `if (element)` null guards. -/
structure AuthPage where
  hasLoginFrame : Bool
  hasMainContent : Bool
  hasAvatar : Bool
  hasName : Bool
  loginFrameHidden : Bool
  mainContentHidden : Bool
  avatarSrc : Option String
  avatarHidden : Bool
  nameText : Option String
  nameHidden : Bool
  alerts : List String
deriving Repr

/-- `user.displayName.split(' ')[0]`. -/
def firstWord (s : String) : String :=
  match s.splitOn " " with
  | w :: _ => w
  | [] => ""

/-- `updateUIForSignedInUser`. -/
def updateUIForSignedInUser (u : AuthUser) (st : AuthPage) : AuthPage :=
  let fallbackIcon := "https://cdn-icons-png.flaticon.com/512/847/847969.png"
  let st1 :=
    if st.hasAvatar then
      { st with
        avatarSrc := some (match u.photoURL with
          | some p => if p = "" then fallbackIcon else p
          | none => fallbackIcon),
        avatarHidden := false }
    else st
  if st1.hasName then
    { st1 with nameText := some ("Hi, " ++ firstWord u.displayName), nameHidden := false }
  else st1

/-- `transitionToMainContent`. -/
def transitionToMainContent (st : AuthPage) : AuthPage :=
  if st.hasLoginFrame && st.hasMainContent then
    { st with loginFrameHidden := true, mainContentHidden := false }
  else st

/-- `signInWithGoogle`; `popup` is the settled result of
`auth.signInWithPopup(googleProvider)` (`Except.error msg` carries the
provider error's `.message`). -/
def signInWithGoogle (authAvailable providerAvailable : Bool)
    (popup : Except String AuthUser) (st : AuthPage) : AuthPage :=
  if !authAvailable || !providerAvailable then
    { st with alerts :=
        st.alerts ++ ["Login is not available right now (Firebase not configured)."] }
  else
    match popup with
    | Except.ok u => transitionToMainContent (updateUIForSignedInUser u st)
    | Except.error msg => { st with alerts := st.alerts ++ ["Login failed: " ++ msg] }

/-! ## JSON values and `JSON.parse` (`loadCache` support)

`loadCache` feeds `localStorage.getItem('acd_lang_cache_v1') || '\x7b\x7d'`
to the browser builtin `JSON.parse` inside a `try/catch` that returns the
empty object on throw. -/
/-- A parsed JSON value. -/
inductive JValue where
  | jnull : JValue
  | jbool : Bool → JValue
  | jnum : Int → JValue
  | jstr : String → JValue
  | jarr : List JValue → JValue
  | jobj : List (String × JValue) → JValue

/-- Whether a JSON value is an object. -/
def JValue.isObj : JValue → Bool
  | .jobj _ => true
  | _ => false

/-- Skip JSON insignificant whitespace. -/
def jsonSkipWs : List Char → List Char
  | c :: cs => if c == ' ' || c == '\n' || c == '\t' || c == '\r' then jsonSkipWs cs else c :: cs
  | [] => []

/-- Consume a run of decimal digits, accumulating their value. -/
def jsonDigits : Nat → List Char → Nat × List Char
  | acc, c :: cs => if c.isDigit then jsonDigits (acc * 10 + (c.toNat - 48)) cs else (acc, c :: cs)
  | acc, [] => (acc, [])

/-- Consume a JSON string body (after the opening quote), handling the
single-character escapes. -/
def jsonStringAux : List Char → List Char → Option (String × List Char)
  | acc, c :: cs =>
    if c == '"' then some (String.mk acc.reverse, cs)
    else if c == '\\' then
      match cs with
      | e :: cs2 =>
        if e == '"' then jsonStringAux ('"' :: acc) cs2
        else if e == '\\' then jsonStringAux ('\\' :: acc) cs2
        else if e == '/' then jsonStringAux ('/' :: acc) cs2
        else if e == 'n' then jsonStringAux ('\n' :: acc) cs2
        else if e == 't' then jsonStringAux ('\t' :: acc) cs2
        else if e == 'r' then jsonStringAux ('\r' :: acc) cs2
        else if e == 'b' then jsonStringAux ('\x08' :: acc) cs2
        else if e == 'f' then jsonStringAux ('\x0c' :: acc) cs2
        else none
      | [] => none
    else if c.toNat < 32 then none
    else jsonStringAux (c :: acc) cs
  | _, [] => none

/-- Modelled from the spec: the browser builtin `JSON.parse` (ECMA-404),
which is not part of this repository.  Fuel-indexed triple of parsers for a
value, the items of a non-empty array, and the members of a non-empty
object.  The model covers the JSON fragment with integer numerals and
without `\u` escapes; on every input appearing in the theorems below it
agrees with the builtin. -/
def jsonStep : Nat →
    ((List Char → Option (JValue × List Char)) ×
     ((List Char → Option (List JValue × List Char)) ×
      (List Char → Option (List (String × JValue) × List Char))))
  | 0 => (fun _ => none, fun _ => none, fun _ => none)
  | f + 1 =>
    let pVal := (jsonStep f).1
    let pArr := (jsonStep f).2.1
    let pObj := (jsonStep f).2.2
    (fun l =>
      match jsonSkipWs l with
      | 'n' :: 'u' :: 'l' :: 'l' :: cs => some (JValue.jnull, cs)
      | 't' :: 'r' :: 'u' :: 'e' :: cs => some (JValue.jbool true, cs)
      | 'f' :: 'a' :: 'l' :: 's' :: 'e' :: cs => some (JValue.jbool false, cs)
      | '-' :: c :: cs =>
        if c.isDigit then
          let r := jsonDigits (c.toNat - 48) cs
          some (JValue.jnum (-(r.1 : Int)), r.2)
        else none
      | '"' :: cs => (jsonStringAux [] cs).map (fun r => (JValue.jstr r.1, r.2))
      | c :: cs =>
        if c.isDigit then
          let r := jsonDigits (c.toNat - 48) cs
          some (JValue.jnum (r.1 : Int), r.2)
        else if c == '[' then
          match jsonSkipWs cs with
          | ']' :: cs2 => some (JValue.jarr [], cs2)
          | rest => (pArr rest).map (fun r => (JValue.jarr r.1, r.2))
        else if c.toNat == 123 then
          match jsonSkipWs cs with
          | d :: cs2 =>
            if d.toNat == 125 then some (JValue.jobj [], cs2)
            else (pObj (d :: cs2)).map (fun r => (JValue.jobj r.1, r.2))
          | [] => none
        else none
      | [] => none,
     fun l =>
      match pVal l with
      | some (v, rest) =>
        match jsonSkipWs rest with
        | ',' :: cs => (pArr cs).map (fun r => (v :: r.1, r.2))
        | ']' :: cs => some ([v], cs)
        | _ => none
      | none => none,
     fun l =>
      match jsonSkipWs l with
      | '"' :: cs =>
        match jsonStringAux [] cs with
        | some (k, rest) =>
          match jsonSkipWs rest with
          | ':' :: cs2 =>
            match pVal cs2 with
            | some (v, rest2) =>
              match jsonSkipWs rest2 with
              | ',' :: cs3 => (pObj cs3).map (fun r => ((k, v) :: r.1, r.2))
              | d :: cs3 => if d.toNat == 125 then some ([(k, v)], cs3) else none
              | [] => none
            | none => none
          | _ => none
        | none => none
      | _ => none)

/-- Parse a JSON value at the front of the input. -/
def jsonVal (fuel : Nat) (l : List Char) : Option (JValue × List Char) :=
  (jsonStep fuel).1 l

/-- `JSON.parse` on a whole string: a single value with only trailing
whitespace allowed. -/
def jsonParse (s : String) : Option JValue :=
  match jsonVal (s.length + 1) s.data with
  | some (v, rest) => if jsonSkipWs rest = [] then some v else none
  | none => none

/-- `loadCache`: parse the stored cache (the empty-object literal when the
key is unset or empty); any parse failure is caught and yields the empty
object. -/
def loadCache (stored : Option String) : JValue :=
  let raw := match stored with
    | some s => if s = "" then "\x7b\x7d" else s
    | none => "\x7b\x7d"
  match jsonParse raw with
  | some v => v
  | none => JValue.jobj []

/-! ## The translation layer (`static/js/language.js`)

Page model: text nodes and attribute-bearing elements with `Nat` identity
labels; `PageState` additionally carries the persisted translation cache
(the JSON round-trip through `localStorage` of a string-to-string map per
language is modelled as the structured map itself) and the two `WeakMap`s
of captured originals.  The `.languageSelect` widgets only mirror the
chosen language and are not part of the model. -/
/-- A DOM text node as inspected by the script: its `nodeValue`, its parent
element's tag (`none` models a detached node with no `parentElement`), and
whether `parent.closest('[data-no-translate="true"]')` matches. -/
structure TextNode where
  id : Nat
  value : String
  parentTag : Option String
  noTranslate : Bool
deriving DecidableEq, Repr

/-- An element as seen by `collectTranslatableAttributes`:
whether it matches the `input, textarea, button, a` selector, its
`data-no-translate` closest-match flag, and its attribute map. -/
structure AttrElem where
  id : Nat
  matchesSelector : Bool
  noTranslate : Bool
  attrs : List (String × String)
deriving DecidableEq, Repr

/-- An entry of the `items` list built by `collectTranslatableAttributes`:
the element, the attribute name, and the trimmed attribute value. -/
structure AttrItem where
  elId : Nat
  attr : String
  val : String
deriving DecidableEq, Repr

/-- The page plus script state acted on by `applyLanguage`. -/
structure PageState where
  nodes : List TextNode
  els : List AttrElem
  cache : List (String × List (String × String))
  origText : List (Nat × String)
  origAttrs : List (Nat × List (String × String))
deriving Repr

/-- The `LANGS` table. -/
def LANGS : List (String × String) :=
  [("en", "English"), ("hi", "Hindi (हिन्दी)"), ("te", "Telugu (తెలుగు)"),
   ("ta", "Tamil (தமிழ்)"), ("kn", "Kannada (ಕನ್ನಡ)"), ("ml", "Malayalam (മലയാളം)"),
   ("pa", "Punjabi (ਪੰਜਾਬੀ)"), ("bho", "Bhojpuri (भोजपुरी)")]

/-- `if (!LANGS[lang]) lang = 'en'` — the normalisation applied by
`applyLanguage` and `setLang`. -/
def normLang (lang : String) : String :=
  if truthyOpt (alookup LANGS lang) then lang else "en"

/-- The local `v` of `getLang`:
`(localStorage.getItem(STORAGE_KEY) || 'en').trim()`. -/
def getLangV (stored : Option String) : String :=
  jsTrim (match stored with
    | some s => if s = "" then "en" else s
    | none => "en")

/-- `getLang`: the stored `acd_lang` value (`'en'` when unset or empty),
trimmed, normalised to a `LANGS` key. -/
def getLang (stored : Option String) : String :=
  if truthyOpt (alookup LANGS (getLangV stored)) then getLangV stored else "en"

/-- `setLang`: the value written to the `acd_lang` storage key. -/
def setLang (lang : String) : String := normLang lang

/-- `isTranslatableTextNode`, in the source's test order: non-empty value,
non-blank value, a parent element, no `data-no-translate` ancestor, a
non-empty tag outside SCRIPT/STYLE/NOSCRIPT. -/
def isTranslatableTextNode (n : TextNode) : Bool :=
  if n.value = "" then false
  else if jsTrim n.value = "" then false
  else match n.parentTag with
    | none => false
    | some tag =>
      if n.noTranslate then false
      else if tag = "" then false
      else if tag = "SCRIPT" || tag = "STYLE" || tag = "NOSCRIPT" then false
      else true

/-- `collectTextNodes`: the tree walker yields the document-order list of
text nodes, filtered by `isTranslatableTextNode`. -/
def collectTextNodes (nodes : List TextNode) : List TextNode :=
  nodes.filter isTranslatableTextNode

/-- The attribute names scanned by `collectTranslatableAttributes`. -/
def ATTR_NAMES : List String := ["placeholder", "title", "aria-label"]

/-- One element/attribute pair's contribution to the collected items:
present with a truthy, non-blank value. -/
def collectElAttr (el : AttrElem) (attr : String) : Option AttrItem :=
  match alookup el.attrs attr with
  | some v => if v ≠ "" ∧ jsTrim v ≠ "" then some ⟨el.id, attr, jsTrim v⟩ else none
  | none => none

/-- The items one element contributes to `collectTranslatableAttributes`:
for each scanned attribute, present with a truthy, non-blank value. -/
def collectElAttrs (el : AttrElem) : List AttrItem :=
  ATTR_NAMES.filterMap (collectElAttr el)

/-- `collectTranslatableAttributes`. -/
def collectTranslatableAttributes (els : List AttrElem) : List AttrItem :=
  (els.filter (fun el => el.matchesSelector && !el.noTranslate)).flatMap collectElAttrs

/-- The capture pass over collected nodes:
`if (!originalTextByNode.has(n)) originalTextByNode.set(n, n.nodeValue)`. -/
def captureNodeOriginals (orig : List (Nat × String)) (ns : List TextNode) :
    List (Nat × String) :=
  ns.foldl (fun m n => if (alookup m n.id).isSome then m else m ++ [(n.id, n.value)]) orig

/-- The capture pass for one attribute item: ensure the element's entry
exists, then store the (trimmed) value unless one is already stored
(`origAttrs[attr] === undefined`). -/
def captureAttrOriginal (m : List (Nat × List (String × String))) (it : AttrItem) :
    List (Nat × List (String × String)) :=
  if (alookup ((alookup m it.elId).getD []) it.attr).isSome then m
  else aset m it.elId (aset ((alookup m it.elId).getD []) it.attr it.val)

/-- The capture pass over all collected attribute items. -/
def captureAttrOriginals (m : List (Nat × List (String × String)))
    (items : List AttrItem) : List (Nat × List (String × String)) :=
  items.foldl captureAttrOriginal m

/-- `uniqueTexts`: trimmed node texts and attribute values, truthy only,
deduplicated in first-occurrence order. -/
def pageTexts (st : PageState) : List String :=
  jsSetDedup ((((collectTextNodes st.nodes).map (fun n => jsTrim n.value)) ++
    (collectTranslatableAttributes st.els).map (fun it => it.val)).filter (fun t => t != ""))

/-- `missing`: the unique texts without a truthy cached translation. -/
def missingTexts (lc : List (String × String)) (st : PageState) : List String :=
  (pageTexts st).filter (fun t => !(truthyOpt (alookup lc t)))

/-- The `/translate` HTTP response as consumed by `translateBatch`:
`ok` is `res.ok`; `errorField` is `data.error` (absent when the body did not
parse as JSON or has no such field); `translations` is `data.translations`
when that field is an array (of strings, per the interface), `none` for any
non-array value. -/
structure TranslateHttpResponse where
  ok : Bool
  errorField : Option String
  translations : Option (List String)

/-- `translateBatch` after the fetch resolved: throw on a non-2xx status
(with `data.error || 'Translation failed'`), throw on a non-array
`translations` field, otherwise return the array. -/
def translateBatch (r : TranslateHttpResponse) : Except String (List String) :=
  if r.ok = false then
    Except.error (match r.errorField with
      | some e => if e = "" then "Translation failed" else e
      | none => "Translation failed")
  else match r.translations with
    | some ts => Except.ok ts
    | none => Except.error "Invalid translation response"

/-- The backend oracle: the response of `POST /translate` for a given
language and `texts` payload. -/
def Server : Type := String → List String → TranslateHttpResponse

/-- The cache update for one successfully translated chunk:
`cache[lang][slice[j]] = translated[j] || slice[j]` for each `j`. -/
def applyChunkToCache : List (String × String) → List String → List String →
    List (String × String)
  | lc, [], _ => lc
  | lc, s :: ss, [] => applyChunkToCache (aset lc s s) ss []
  | lc, s :: ss, t :: ts => applyChunkToCache (aset lc s (if t = "" then s else t)) ss ts

/-- The chunk loop: issue each chunk in turn; on a `translateBatch` throw,
warn and stop (the `Bool` is false iff the loop aborted).  Returns the
requests actually issued and the language cache after the successful
updates (the state `saveCache` persisted). -/
def runChunksAux (srv : Server) (lang : String) :
    List (List String) → List (String × String) →
    List (List String) × (List (String × String) × Bool)
  | [], lc => ([], (lc, true))
  | c :: cs, lc =>
    match translateBatch (srv lang c) with
    | Except.ok ts =>
      let r := runChunksAux srv lang cs (applyChunkToCache lc c ts)
      (c :: r.1, r.2)
    | Except.error _ => ([c], (lc, false))

/-- `orig = originalTextByNode.get(node) || node.nodeValue || ''` in the node
application pass. -/
def applyNodeOrig (orig : List (Nat × String)) (n : TextNode) : String :=
  match alookup orig n.id with
  | some s => if s = "" then (if n.value = "" then "" else n.value) else s
  | none => if n.value = "" then "" else n.value

/-- The node application pass for one collected node:
`key = orig.trim()`; skip blank keys, else
`node.nodeValue = cache[lang][key] || orig`. -/
def applyNodeTranslation (orig : List (Nat × String)) (lc : List (String × String))
    (n : TextNode) : TextNode :=
  if jsTrim (applyNodeOrig orig n) = "" then n
  else { n with value := match alookup lc (jsTrim (applyNodeOrig orig n)) with
    | some t => if t = "" then applyNodeOrig orig n else t
    | none => applyNodeOrig orig n }

/-- The node application pass (the loop runs over the collected nodes). -/
def applyNodeTranslations (orig : List (Nat × String)) (lc : List (String × String))
    (nodes : List TextNode) : List TextNode :=
  nodes.map (fun n => if isTranslatableTextNode n then applyNodeTranslation orig lc n else n)

/-- `el.setAttribute(attr, value)` on the element with the given label. -/
def updateEl (els : List AttrElem) (id : Nat) (f : AttrElem → AttrElem) : List AttrElem :=
  els.map (fun e => if e.id = id then f e else e)

/-- A guarded attribute write, the common shape of the attribute application
and restore loops: when `cond` holds for the item, set the item's attribute
on the item's element to `val it`. -/
def attrFoldStep (cond : AttrItem → Bool) (val : AttrItem → String)
    (els : List AttrElem) (it : AttrItem) : List AttrElem :=
  if cond it then
    updateEl els it.elId (fun el => { el with attrs := aset el.attrs it.attr (val it) })
  else els

/-- The attribute application pass:
`item.el.setAttribute(item.attr, cache[lang][key] || key)` for each item. -/
def applyAttrTranslations (lc : List (String × String)) (items : List AttrItem)
    (els : List AttrElem) : List AttrElem :=
  items.foldl (attrFoldStep (fun _ => true)
    (fun it => match alookup lc it.val with
      | some t => if t = "" then it.val else t
      | none => it.val)) els

/-- The `lang === 'en'` restore pass over text nodes: collected nodes whose
original was captured get it back. -/
def restoreEnNode (orig : List (Nat × String)) (n : TextNode) : TextNode :=
  if isTranslatableTextNode n then
    match alookup orig n.id with
    | some o => { n with value := o }
    | none => n
  else n

/-- The `lang === 'en'` restore pass over all text nodes. -/
def restoreEnNodes (orig : List (Nat × String)) (nodes : List TextNode) : List TextNode :=
  nodes.map (restoreEnNode orig)

/-- Whether a captured original attribute value exists for the item. -/
def enRestoreCond (origA : List (Nat × List (String × String))) (it : AttrItem) : Bool :=
  ((alookup origA it.elId).bind (fun m => alookup m it.attr)).isSome

/-- The captured original attribute value for the item (meaningful when
`enRestoreCond` holds). -/
def enRestoreVal (origA : List (Nat × List (String × String))) (it : AttrItem) : String :=
  ((alookup origA it.elId).bind (fun m => alookup m it.attr)).getD ""

/-- The `lang === 'en'` restore pass over attributes: for each currently
collected item, restore the captured original value when one exists. -/
def restoreEnAttrs (origA : List (Nat × List (String × String)))
    (els : List AttrElem) : List AttrElem :=
  (collectTranslatableAttributes els).foldl
    (attrFoldStep (enRestoreCond origA) (enRestoreVal origA)) els

/-- `applyLanguage`: returns the new page/script state and the list of
`texts` payloads of the `/translate` requests issued.  The select-widget
sync and the `document.body` null check are outside the model (the model
always has a body; selects carry no translated text). -/
def applyLanguage (srv : Server) (lang0 : String) (st : PageState) :
    PageState × List (List String) :=
  let lang := normLang lang0
  if lang = "en" then
    ({ st with nodes := restoreEnNodes st.origText st.nodes,
               els := restoreEnAttrs st.origAttrs st.els }, [])
  else
    let lc0 := (alookup st.cache lang).getD []
    let ns := collectTextNodes st.nodes
    let orig := captureNodeOriginals st.origText ns
    let items := collectTranslatableAttributes st.els
    let origA := captureAttrOriginals st.origAttrs items
    let missing := missingTexts lc0 st
    let r := runChunksAux srv lang (chunks80 missing) lc0
    if r.2.2 then
      ({ nodes := applyNodeTranslations orig r.2.1 st.nodes,
         els := applyAttrTranslations r.2.1 items st.els,
         cache := aset st.cache lang r.2.1,
         origText := orig, origAttrs := origA }, r.1)
    else
      ({ st with cache := aset st.cache lang r.2.1,
                 origText := orig, origAttrs := origA }, r.1)

/-- A sequence of `applyLanguage` calls (each with its backend oracle). -/
def runCalls (calls : List (Server × String)) (st : PageState) : PageState :=
  calls.foldl (fun s p => (applyLanguage p.1 p.2 s).1) st

/-! ## Witness fixtures -/
/-- A backend oracle answering every request with the translation `"X"` for
each input string. -/
def wSrvOk : Server := fun _ ts =>
  { ok := true, errorField := none, translations := some (ts.map (fun _ => "X")) }

/-- A backend oracle failing every request with a 500-style error. -/
def wSrvBad : Server := fun _ _ =>
  { ok := false, errorField := some "boom", translations := none }

/-- A one-node, one-element page: text `"Hello"`, placeholder `" Name "`. -/
def wStA : PageState :=
  { nodes := [{ id := 0, value := "Hello", parentTag := some "P", noTranslate := false }],
    els := [{ id := 1, matchesSelector := true, noTranslate := false,
              attrs := [("placeholder", " Name ")] }],
    cache := [], origText := [], origAttrs := [] }

/-- `wStA` with `"Hello"` already cached for Hindi. -/
def wStCached : PageState :=
  { wStA with cache := [("hi", [("Hello", "X")])] }

/-- A page state carrying already-captured originals (witness fixture). -/
def wStOrig : PageState :=
  { wStA with origText := [(0, "Orig")], origAttrs := [(1, [("placeholder", "P0")])] }

/-- A backend oracle answering every request with the whitespace-only
translation `" "` for each input string. -/
def wSrvBlank : Server := fun _ ts =>
  { ok := true, errorField := none, translations := some (ts.map (fun _ => " ")) }

/-- `wStA` with the whitespace-only translation `" "` already stored in the
cache for Hindi. -/
def wStBlankCache : PageState :=
  { wStA with cache := [("hi", [("Hello", " ")])] }

/-! ## Goodness predicates and collection membership (C2 support) -/
/-- A language cache whose every value is empty or non-blank: what the
script in fact maintains when the backend returns no blank-but-nonempty
translations. -/
def GoodLC (lc : List (String × String)) : Prop :=
  ∀ p ∈ lc, p.2 = "" ∨ jsTrim p.2 ≠ ""

/-- All per-language caches are good. -/
def GoodCache (c : List (String × List (String × String))) : Prop :=
  ∀ q ∈ c, GoodLC q.2

/-- A backend whose successful responses contain no blank-but-nonempty
translation strings (empty strings are fine: the script replaces them by the
request string). -/
def GoodServer (srv : Server) : Prop :=
  ∀ lang texts ts, translateBatch (srv lang texts) = Except.ok ts →
    ∀ t ∈ ts, t = "" ∨ jsTrim t ≠ ""

/-- The effect of one `attrFoldStep` on a single element. -/
def stepEl (cond : AttrItem → Bool) (val : AttrItem → String) (it : AttrItem)
    (e : AttrElem) : AttrElem :=
  if cond it then
    (if e.id = it.elId then { e with attrs := aset e.attrs it.attr (val it) } else e)
  else e

/-! ## The state invariant for restoration (C2) -/
/-- Invariant of one text node against its pristine (`st0`) version: identity
and structural fields never change; once an original is captured it is the
pristine value of a then-translatable node, and the current value is either
still pristine or a non-blank replacement. -/
def NRel (orig : List (Nat × String)) (n0 n : TextNode) : Prop :=
  n.id = n0.id ∧ n.parentTag = n0.parentTag ∧ n.noTranslate = n0.noTranslate ∧
  (match alookup orig n0.id with
   | some v => v = n0.value ∧ isTranslatableTextNode n0 = true ∧
       (n.value = n0.value ∨ jsTrim n.value ≠ "")
   | none => n.value = n0.value)

/-- Invariant of one element/attribute pair: once an original is captured it
is the trimmed pristine value of a then-collected item, and the current value
is either still pristine or a non-blank replacement; attributes never
captured are untouched. -/
def ERelAttr (origA : List (Nat × List (String × String))) (e0 e : AttrElem)
    (attr : String) : Prop :=
  match (alookup origA e0.id).bind (fun mm => alookup mm attr) with
  | some v =>
    ∃ v0, alookup e0.attrs attr = some v0 ∧ v = jsTrim v0 ∧ v ≠ "" ∧
      e0.matchesSelector = true ∧ e0.noTranslate = false ∧
      (alookup e.attrs attr = some v0 ∨ ∃ w, alookup e.attrs attr = some w ∧ jsTrim w ≠ "")
  | none => alookup e.attrs attr = alookup e0.attrs attr

/-- Invariant of one element. -/
def ERel (origA : List (Nat × List (String × String))) (e0 e : AttrElem) : Prop :=
  e.id = e0.id ∧ e.matchesSelector = e0.matchesSelector ∧ e.noTranslate = e0.noTranslate ∧
  ∀ attr ∈ ATTR_NAMES, ERelAttr origA e0 e attr

/-- The full state invariant of a reachable state against the pristine one. -/
def StInv (st0 st : PageState) : Prop :=
  st.nodes.length = st0.nodes.length ∧
  (∀ (i : Nat) (n0 n : TextNode), st0.nodes[i]? = some n0 → st.nodes[i]? = some n →
    NRel st.origText n0 n) ∧
  st.els.length = st0.els.length ∧
  (∀ (i : Nat) (e0 e : AttrElem), st0.els[i]? = some e0 → st.els[i]? = some e →
    ERel st.origAttrs e0 e) ∧
  GoodCache st.cache

theorem truthyOpt_some_iff (o : Option String) :
    truthyOpt o = true ↔ ∃ s, o = some s ∧ s ≠ "" := by
  cases o with
  | none => simp [truthyOpt]
  | some s => simp [truthyOpt]

theorem alookup_aset_self {κ : Type} [DecidableEq κ] {β : Type}
    (l : List (κ × β)) (q : κ) (w : β) : alookup (aset l q w) q = some w := by
  induction l with
  | nil => simp [aset, alookup]
  | cons p t ih =>
    obtain ⟨k, v⟩ := p
    by_cases h : k = q
    · simp [aset, h, alookup]
    · simp [aset, h, alookup, ih]

theorem alookup_aset_ne {κ : Type} [DecidableEq κ] {β : Type}
    (l : List (κ × β)) (q : κ) (w : β) (q2 : κ) (h : q2 ≠ q) :
    alookup (aset l q w) q2 = alookup l q2 := by
  induction l with
  | nil => simp [aset, alookup, Ne.symm h]
  | cons p t ih =>
    obtain ⟨k, v⟩ := p
    by_cases hk : k = q
    · subst hk
      simp [aset, alookup, Ne.symm h]
    · simp only [aset, if_neg hk, alookup]
      by_cases hk2 : k = q2
      · simp [hk2]
      · simp [hk2, ih]

theorem mem_aset {κ : Type} [DecidableEq κ] {β : Type}
    (l : List (κ × β)) (q : κ) (w : β) (p : κ × β) (h : p ∈ aset l q w) :
    p = (q, w) ∨ p ∈ l := by
  induction l with
  | nil => simpa [aset] using h
  | cons e t ih =>
    obtain ⟨k, v⟩ := e
    by_cases hk : k = q
    · simp only [aset, if_pos hk, List.mem_cons] at h
      rcases h with h | h
      · exact Or.inl h
      · exact Or.inr (List.mem_cons_of_mem _ h)
    · simp only [aset, if_neg hk, List.mem_cons] at h
      rcases h with h | h
      · exact Or.inr (by simp [h])
      · rcases ih h with h2 | h2
        · exact Or.inl h2
        · exact Or.inr (List.mem_cons_of_mem _ h2)

theorem alookup_mem {κ : Type} [DecidableEq κ] {β : Type}
    (l : List (κ × β)) (q : κ) (v : β) (h : alookup l q = some v) : (q, v) ∈ l := by
  induction l with
  | nil => simp [alookup] at h
  | cons e t ih =>
    obtain ⟨k, w⟩ := e
    by_cases hk : k = q
    · subst hk
      simp only [alookup, eq_self_iff_true, if_true, Option.some.injEq] at h
      subst h
      exact List.mem_cons_self _ _
    · simp only [alookup, if_neg hk] at h
      exact List.mem_cons_of_mem _ (ih h)

theorem alookup_append_single {κ : Type} [DecidableEq κ] {β : Type}
    (m : List (κ × β)) (k : κ) (v : β) (q : κ) :
    alookup (m ++ [(k, v)]) q =
      (match alookup m q with
       | some w => some w
       | none => if k = q then some v else none) := by
  induction m with
  | nil => simp [alookup]
  | cons e t ih =>
    obtain ⟨k2, w2⟩ := e
    by_cases hk : k2 = q
    · simp [alookup, hk]
    · simp [alookup, hk, ih]

/-- Values stored in an association list are found under their key or were
there before an update. -/
theorem alookup_of_alookup_append {κ : Type} [DecidableEq κ] {β : Type}
    (m : List (κ × β)) (k : κ) (v : β) (q : κ) (w : β)
    (h : alookup m q = some w) : alookup (m ++ [(k, v)]) q = some w := by
  rw [alookup_append_single, h]

theorem dropWhile_idem {α : Type} (p : α → Bool) (l : List α) :
    (l.dropWhile p).dropWhile p = l.dropWhile p := by
  induction l with
  | nil => rfl
  | cons a t ih =>
    by_cases h : p a
    · rw [List.dropWhile_cons_of_pos h]; exact ih
    · rw [List.dropWhile_cons_of_neg h, List.dropWhile_cons_of_neg h]

theorem headDropWhileFalse {α : Type} (p : α → Bool) (l : List α) (c : α)
    (h : (l.dropWhile p).head? = some c) : p c = false := by
  induction l with
  | nil => simp [List.dropWhile] at h
  | cons a t ih =>
    by_cases hp : p a
    · rw [List.dropWhile_cons_of_pos hp] at h; exact ih h
    · rw [List.dropWhile_cons_of_neg hp] at h
      simp only [List.head?_cons, Option.some.injEq] at h
      subst h
      exact Bool.eq_false_iff.mpr hp

theorem dropWhile_eq_self_of_head {α : Type} (p : α → Bool) (l : List α)
    (h : ∀ c, l.head? = some c → p c = false) : l.dropWhile p = l := by
  cases l with
  | nil => rfl
  | cons a t =>
    rw [List.dropWhile_cons_of_neg]
    simp [h a rfl]

theorem getLastDropWhile {α : Type} (p : α → Bool) (l : List α)
    (h : l.dropWhile p ≠ []) : (l.dropWhile p).getLast? = l.getLast? := by
  induction l with
  | nil => simp [List.dropWhile] at h
  | cons a t ih =>
    by_cases hp : p a
    · rw [List.dropWhile_cons_of_pos hp] at h ⊢
      obtain ⟨b, t2, rfl⟩ : ∃ b t2, t = b :: t2 := by
        cases t with
        | nil => simp [List.dropWhile] at h
        | cons b t2 => exact ⟨b, t2, rfl⟩
      rw [ih h, List.getLast?_cons_cons]
    · rw [List.dropWhile_cons_of_neg hp]

theorem trimList_idem (l : List Char) : trimList (trimList l) = trimList l := by
  have h1 : (trimList l).dropWhile jsWhitespace = trimList l := by
    apply dropWhile_eq_self_of_head
    intro c hc
    unfold trimList at hc
    rw [List.head?_reverse] at hc
    have hxne : (l.dropWhile jsWhitespace).reverse.dropWhile jsWhitespace ≠ [] := by
      intro he
      rw [he] at hc
      simp at hc
    rw [getLastDropWhile _ _ hxne, List.getLast?_reverse] at hc
    exact headDropWhileFalse _ _ _ hc
  unfold trimList
  rw [show trimList l = ((l.dropWhile jsWhitespace).reverse.dropWhile jsWhitespace).reverse
        from rfl] at h1
  rw [h1, List.reverse_reverse, dropWhile_idem]

theorem jsTrim_idem (s : String) : jsTrim (jsTrim s) = jsTrim s := by
  show String.mk (trimList (String.mk (trimList s.data)).data) = String.mk (trimList s.data)
  rw [show (String.mk (trimList s.data)).data = trimList s.data from rfl, trimList_idem]

theorem mem_dedupFold (l : List String) (acc : List String) (x : String) :
    x ∈ l.foldl (fun acc t => if t ∈ acc then acc else acc ++ [t]) acc ↔
      x ∈ acc ∨ x ∈ l := by
  induction l generalizing acc with
  | nil => simp
  | cons a t ih =>
    simp only [List.foldl_cons]
    rw [ih]
    by_cases h : a ∈ acc
    · rw [if_pos h]
      simp only [List.mem_cons]
      constructor
      · tauto
      · rintro (hx | hx | hx)
        · exact Or.inl hx
        · exact Or.inl (hx ▸ h)
        · exact Or.inr hx
    · rw [if_neg h]
      simp only [List.mem_append, List.mem_cons, List.not_mem_nil, or_false]
      tauto

theorem nodup_dedupFold (l : List String) (acc : List String) (h : acc.Nodup) :
    (l.foldl (fun acc t => if t ∈ acc then acc else acc ++ [t]) acc).Nodup := by
  induction l generalizing acc with
  | nil => simpa
  | cons a t ih =>
    simp only [List.foldl_cons]
    by_cases ha : a ∈ acc
    · rw [if_pos ha]; exact ih acc h
    · rw [if_neg ha]
      apply ih
      simp [List.nodup_append, h, ha]

theorem jsSetDedup_mem (l : List String) (x : String) : x ∈ jsSetDedup l ↔ x ∈ l := by
  simpa using mem_dedupFold l [] x

theorem jsSetDedup_nodup (l : List String) : (jsSetDedup l).Nodup :=
  nodup_dedupFold l [] List.nodup_nil

theorem chunksOfAux_flatten (fuel : Nat) (l : List String) (h : l.length ≤ fuel) :
    (chunksOfAux fuel l).flatten = l := by
  induction fuel generalizing l with
  | zero =>
    have : l = [] := List.length_eq_zero.mp (Nat.le_zero.mp h)
    subst this; rfl
  | succ n ih =>
    cases l with
    | nil => rfl
    | cons a t =>
      show (a :: t).take 80 ++ (chunksOfAux n ((a :: t).drop 80)).flatten = a :: t
      rw [ih]
      · exact List.take_append_drop 80 (a :: t)
      · rw [List.length_drop]
        simp only [List.length_cons] at h ⊢
        omega

theorem chunks80_flatten (l : List String) : (chunks80 l).flatten = l :=
  chunksOfAux_flatten _ _ le_rfl

theorem mem_chunksOfAux (fuel : Nat) (l : List String) (c : List String)
    (hc : c ∈ chunksOfAux fuel l) : c.Sublist l ∧ c.length ≤ 80 := by
  induction fuel generalizing l with
  | zero => simp [chunksOfAux] at hc
  | succ n ih =>
    cases l with
    | nil => simp [chunksOfAux] at hc
    | cons a t =>
      rcases List.mem_cons.mp hc with h | h
      · subst h
        refine ⟨List.take_sublist _ _, ?_⟩
        simp [List.length_take]
      · rcases ih _ h with ⟨hsub, hlen⟩
        exact ⟨hsub.trans (List.drop_sublist _ _), hlen⟩

theorem mem_chunks80 (l : List String) (c : List String) (hc : c ∈ chunks80 l) :
    c.Sublist l ∧ c.length ≤ 80 :=
  mem_chunksOfAux _ _ _ hc

/-- C1: if a file is selected whose size exceeds 2 MB (`size/1024/1024 > 2`),
the submit handler alerts and returns without issuing the `POST /emergency`
request; the fetch is reached exactly when no file is selected or the
selected file passes the size check. -/
theorem emergency_size_guard (files : List Nat) :
    (∀ f rest, files = f :: rest → (f : ℚ) / 1024 / 1024 > 2 →
        emergencySubmit files = { sizeAlerted := true, fetchIssued := false }) ∧
    ((emergencySubmit files).fetchIssued = true ↔
        files = [] ∨ ∃ f rest, files = f :: rest ∧ ¬ ((f : ℚ) / 1024 / 1024 > 2)) := by
  constructor
  · rintro f rest rfl hf
    simp [emergencySubmit, hf]
  · cases files with
    | nil => simp [emergencySubmit]
    | cons f rest =>
      by_cases hf : (f : ℚ) / 1024 / 1024 > 2
      · simp only [emergencySubmit, if_pos hf]
        constructor
        · intro h; exact absurd h (by simp)
        · rintro (h | ⟨f2, rest2, heq, hle⟩)
          · exact absurd h (by simp)
          · obtain ⟨rfl, rfl⟩ : f2 = f ∧ rest2 = rest := by
              constructor <;> · injection heq with h1 h2; first | exact h1.symm | exact h2.symm
            exact absurd hf hle
      · simp only [emergencySubmit, if_neg hf]
        constructor
        · intro _; exact Or.inr ⟨f, rest, rfl, hf⟩
        · intro _; trivial

/-- Witness for C1 at concrete inputs: a 2 MB + 1 byte file is rejected
without a fetch, a 1000-byte file reaches the fetch. -/
theorem emergency_size_guard_witness :
    emergencySubmit [2097153] = { sizeAlerted := true, fetchIssued := false } ∧
    (emergencySubmit [1000]).fetchIssued = true := by
  refine ⟨(emergency_size_guard [2097153]).1 2097153 [] rfl (by norm_num), ?_⟩
  exact (emergency_size_guard [1000]).2.mpr (Or.inr ⟨1000, [], rfl, by norm_num⟩)

/-- C7: when the popup flow rejects, `signInWithGoogle` appends exactly one
alert whose text contains the provider's error message, and the page state
is otherwise unchanged — in particular no UI transition to the main content
occurs. -/
theorem signIn_error_alerts_and_no_transition (st : AuthPage) (msg : String) :
    (signInWithGoogle true true (Except.error msg) st).alerts =
      st.alerts ++ ["Login failed: " ++ msg] ∧
    (∃ pre post, "Login failed: " ++ msg = pre ++ msg ++ post) ∧
    signInWithGoogle true true (Except.error msg) st =
      { st with alerts := st.alerts ++ ["Login failed: " ++ msg] } := by
  refine ⟨rfl, ⟨"Login failed: ", "", by simp⟩, rfl⟩

/-- C10 counterexample: the stored string `"5"` is valid JSON, so `loadCache`
returns the number `5`, which is not an object — refuting "it returns an
object" for every stored value. -/
theorem loadCache_nonobject_counterexample :
    loadCache (some "5") = JValue.jnum 5 ∧ (loadCache (some "5")).isObj = false := by
  constructor <;> rfl

/-- C10 (amended): `loadCache` is total and never throws; it returns the
parsed JSON value of the stored string (not necessarily an object), and the
empty object exactly when the key is unset, the stored string is empty, or
parsing fails. -/
theorem loadCache_total_spec (stored : Option String) :
    (stored = none → loadCache stored = JValue.jobj []) ∧
    (stored = some "" → loadCache stored = JValue.jobj []) ∧
    (∀ s, stored = some s → s ≠ "" → jsonParse s = none → loadCache stored = JValue.jobj []) ∧
    (∀ s v, stored = some s → s ≠ "" → jsonParse s = some v → loadCache stored = v) := by
  refine ⟨?_, ?_, ?_, ?_⟩
  · rintro rfl; rfl
  · rintro rfl; rfl
  · rintro s rfl hs hp
    simp only [loadCache, if_neg hs, hp]
  · rintro s v rfl hs hp
    simp only [loadCache, if_neg hs, hp]

/-- Witness for C10 at concrete inputs: unset key, stored empty-object
literal, stored malformed JSON, stored `"null"`. -/
theorem loadCache_total_spec_witness :
    loadCache none = JValue.jobj [] ∧ loadCache (some "\x7b\x7d") = JValue.jobj [] ∧
    loadCache (some "\x7b") = JValue.jobj [] ∧ loadCache (some "null") = JValue.jnull := by
  refine ⟨(loadCache_total_spec none).1 rfl, ?_, ?_, ?_⟩
  · exact (loadCache_total_spec (some "\x7b\x7d")).2.2.2 "\x7b\x7d" (JValue.jobj []) rfl
      (by decide) rfl
  · exact (loadCache_total_spec (some "\x7b")).2.2.1 "\x7b" rfl (by decide) rfl
  · exact (loadCache_total_spec (some "null")).2.2.2 "null" JValue.jnull rfl (by decide) rfl

/-! ## Request-shape lemmas -/
theorem runChunksAux_reqs_take (srv : Server) (lang : String) (cs : List (List String))
    (lc : List (String × String)) :
    ∃ k, (runChunksAux srv lang cs lc).1 = cs.take k := by
  induction cs generalizing lc with
  | nil => exact ⟨0, rfl⟩
  | cons c cs ih =>
    simp only [runChunksAux]
    cases hb : translateBatch (srv lang c) with
    | ok ts =>
      obtain ⟨k, hk⟩ := ih (applyChunkToCache lc c ts)
      exact ⟨k + 1, by simp [hk, List.take_succ_cons]⟩
    | error e => exact ⟨1, by simp [List.take_succ_cons]⟩

theorem runChunksAux_ok_all (srv : Server) (lang : String) (cs : List (List String))
    (lc : List (String × String)) (h : (runChunksAux srv lang cs lc).2.2 = true) :
    ∀ req ∈ (runChunksAux srv lang cs lc).1,
      ∃ ts, translateBatch (srv lang req) = Except.ok ts := by
  induction cs generalizing lc with
  | nil => simp [runChunksAux]
  | cons c cs ih =>
    simp only [runChunksAux] at h ⊢
    cases hb : translateBatch (srv lang c) with
    | ok ts =>
      rw [hb] at h
      dsimp only at h ⊢
      intro req hreq
      rcases List.mem_cons.mp hreq with rfl | hreq
      · exact ⟨ts, hb⟩
      · exact ih (applyChunkToCache lc c ts) h req hreq
    | error e =>
      rw [hb] at h
      dsimp only at h
      simp at h

/-- The payloads issued by `applyLanguage`: none for English, a prefix of the
80-chunking of the missing list otherwise. -/
theorem applyLanguage_reqs (srv : Server) (lang : String) (st : PageState) :
    (applyLanguage srv lang st).2 =
      if normLang lang = "en" then []
      else (runChunksAux srv (normLang lang)
        (chunks80 (missingTexts ((alookup st.cache (normLang lang)).getD []) st))
        ((alookup st.cache (normLang lang)).getD [])).1 := by
  by_cases hl : normLang lang = "en"
  · simp [applyLanguage, hl]
  · simp only [applyLanguage, if_neg hl]
    by_cases hok : (runChunksAux srv (normLang lang)
        (chunks80 (missingTexts ((alookup st.cache (normLang lang)).getD []) st))
        ((alookup st.cache (normLang lang)).getD [])).2.2 = true
    · simp [hok]
    · simp [hok]

theorem mem_reqs_mem_chunks (srv : Server) (lang : String) (st : PageState)
    (req : List String) (h : req ∈ (applyLanguage srv lang st).2) :
    normLang lang ≠ "en" ∧
    req ∈ chunks80 (missingTexts ((alookup st.cache (normLang lang)).getD []) st) := by
  rw [applyLanguage_reqs] at h
  by_cases hl : normLang lang = "en"
  · rw [if_pos hl] at h
    simp at h
  · rw [if_neg hl] at h
    obtain ⟨k, hk⟩ := runChunksAux_reqs_take srv (normLang lang)
      (chunks80 (missingTexts ((alookup st.cache (normLang lang)).getD []) st))
      ((alookup st.cache (normLang lang)).getD [])
    rw [hk] at h
    exact ⟨hl, (List.take_sublist _ _).subset h⟩

/-- C5: every `texts` payload of a `/translate` request issued by
`applyLanguage` has at most 80 strings, the requests are an initial run of
the consecutive 80-slices of the missing list, and those slices concatenate
back to the missing list. -/
theorem translate_requests_chunked (srv : Server) (lang : String) (st : PageState) :
    (∀ req ∈ (applyLanguage srv lang st).2, req.length ≤ 80) ∧
    (∃ k, (applyLanguage srv lang st).2 =
      (chunks80 (missingTexts ((alookup st.cache (normLang lang)).getD []) st)).take k) ∧
    (chunks80 (missingTexts ((alookup st.cache (normLang lang)).getD []) st)).flatten =
      missingTexts ((alookup st.cache (normLang lang)).getD []) st := by
  refine ⟨?_, ?_, chunks80_flatten _⟩
  · intro req hreq
    exact (mem_chunks80 _ _ (mem_reqs_mem_chunks srv lang st req hreq).2).2
  · rw [applyLanguage_reqs]
    by_cases hl : normLang lang = "en"
    · exact ⟨0, by simp [hl]⟩
    · rw [if_neg hl]
      exact runChunksAux_reqs_take _ _ _ _

/-- C3: a string with a truthy cached translation for the selected
(non-English) language is never part of any `/translate` payload issued by
`applyLanguage`. -/
theorem cached_strings_not_rerequested (srv : Server) (lang : String) (st : PageState)
    (t s : String)
    (hc : alookup ((alookup st.cache lang).getD []) t = some s) (hs : s ≠ "")
    (hlang : normLang lang = lang) (hne : lang ≠ "en") :
    ∀ req ∈ (applyLanguage srv lang st).2, t ∉ req := by
  intro req hreq ht
  obtain ⟨-, hmem⟩ := mem_reqs_mem_chunks srv lang st req hreq
  rw [hlang] at hmem
  have hsub : req.Sublist (missingTexts ((alookup st.cache lang).getD []) st) :=
    (mem_chunks80 _ _ hmem).1
  have htm : t ∈ missingTexts ((alookup st.cache lang).getD []) st := hsub.subset ht
  have := List.of_mem_filter htm
  rw [hc] at this
  simp [truthyOpt, hs] at this

/-- C4: if any issued `/translate` call fails (`translateBatch` throws),
`applyLanguage` returns before the application phase, so every text node and
every attribute keeps the value it had before the call. -/
theorem translate_failure_leaves_page (srv : Server) (lang : String) (st : PageState)
    (h : ∃ req ∈ (applyLanguage srv lang st).2, ∃ e,
        translateBatch (srv (normLang lang) req) = Except.error e) :
    (applyLanguage srv lang st).1.nodes = st.nodes ∧
    (applyLanguage srv lang st).1.els = st.els := by
  obtain ⟨req, hreq, e, herr⟩ := h
  by_cases hl : normLang lang = "en"
  · rw [applyLanguage_reqs, if_pos hl] at hreq
    simp at hreq
  · have hreq2 : req ∈ (runChunksAux srv (normLang lang)
        (chunks80 (missingTexts ((alookup st.cache (normLang lang)).getD []) st))
        ((alookup st.cache (normLang lang)).getD [])).1 := by
      rw [applyLanguage_reqs, if_neg hl] at hreq
      exact hreq
    have hok : (runChunksAux srv (normLang lang)
        (chunks80 (missingTexts ((alookup st.cache (normLang lang)).getD []) st))
        ((alookup st.cache (normLang lang)).getD [])).2.2 = false := by
      by_contra hok
      obtain ⟨ts, hts⟩ := runChunksAux_ok_all srv (normLang lang) _ _
        (Bool.of_not_eq_false hok) req hreq2
      rw [hts] at herr
      exact absurd herr (by simp)
    simp only [applyLanguage, if_neg hl, hok]
    exact ⟨rfl, rfl⟩

/-! ## Chunk/cache alignment (C6) -/
theorem alookup_applyChunk_notmem (slice : List String) :
    ∀ (lc : List (String × String)) (ts : List String) (x : String), x ∉ slice →
      alookup (applyChunkToCache lc slice ts) x = alookup lc x := by
  induction slice with
  | nil =>
    intro lc ts x _
    cases ts <;> rfl
  | cons s ss ih =>
    intro lc ts x h
    have hxs : x ≠ s := fun he => h (he ▸ List.mem_cons_self s ss)
    have hxss : x ∉ ss := fun hm => h (List.mem_cons_of_mem _ hm)
    cases ts with
    | nil =>
      rw [show applyChunkToCache lc (s :: ss) [] = applyChunkToCache (aset lc s s) ss []
            from rfl,
        ih _ _ _ hxss, alookup_aset_ne _ _ _ _ hxs]
    | cons t ts2 =>
      rw [show applyChunkToCache lc (s :: ss) (t :: ts2) =
            applyChunkToCache (aset lc s (if t = "" then s else t)) ss ts2 from rfl,
        ih _ _ _ hxss, alookup_aset_ne _ _ _ _ hxs]

theorem applyChunk_alignment (slice : List String) :
    ∀ (lc : List (String × String)) (translated : List String) (j : Nat)
      (hj : j < slice.length), slice.Nodup →
      alookup (applyChunkToCache lc slice translated) (slice.get ⟨j, hj⟩) =
        some (match translated[j]? with
          | some t => if t = "" then slice.get ⟨j, hj⟩ else t
          | none => slice.get ⟨j, hj⟩) := by
  induction slice with
  | nil =>
    intro lc translated j hj
    exact absurd hj (by simp)
  | cons s ss ih =>
    intro lc translated j hj hnd
    have hnotmem : s ∉ ss := (List.nodup_cons.mp hnd).1
    cases j with
    | zero =>
      cases translated with
      | nil =>
        show alookup (applyChunkToCache (aset lc s s) ss []) s = _
        rw [alookup_applyChunk_notmem _ _ _ _ hnotmem, alookup_aset_self]
        simp
      | cons t ts =>
        show alookup (applyChunkToCache (aset lc s (if t = "" then s else t)) ss ts) s = _
        rw [alookup_applyChunk_notmem _ _ _ _ hnotmem, alookup_aset_self]
        simp [List.getElem?_cons_zero]
    | succ j =>
      have hj2 : j < ss.length := by simpa using hj
      have hget : (s :: ss).get ⟨j + 1, hj⟩ = ss.get ⟨j, hj2⟩ := rfl
      cases translated with
      | nil =>
        have h2 := ih (aset lc s s) [] j hj2 (List.nodup_cons.mp hnd).2
        rw [show applyChunkToCache lc (s :: ss) [] = applyChunkToCache (aset lc s s) ss []
              from rfl, hget]
        rw [List.getElem?_nil] at h2 ⊢
        exact h2
      | cons t ts =>
        have h2 := ih (aset lc s (if t = "" then s else t)) ts j hj2 (List.nodup_cons.mp hnd).2
        rw [show applyChunkToCache lc (s :: ss) (t :: ts) =
              applyChunkToCache (aset lc s (if t = "" then s else t)) ss ts from rfl, hget,
          List.getElem?_cons_succ]
        exact h2

theorem missingTexts_nodup (lc : List (String × String)) (st : PageState) :
    (missingTexts lc st).Nodup :=
  (jsSetDedup_nodup _).filter _

/-- C6: for a successfully translated chunk, the cache maps the j-th
requested string to the j-th response string, falling back to the request
string itself when that response entry is missing or empty; and every chunk
`applyLanguage` requests is duplicate-free, so the per-chunk statement
covers every issued request. -/
theorem translated_chunk_cache_alignment :
    (∀ (lc : List (String × String)) (slice translated : List String) (j : Nat)
      (hj : j < slice.length), slice.Nodup →
      alookup (applyChunkToCache lc slice translated) (slice.get ⟨j, hj⟩) =
        some (match translated[j]? with
          | some t => if t = "" then slice.get ⟨j, hj⟩ else t
          | none => slice.get ⟨j, hj⟩)) ∧
    (∀ (srv : Server) (lang : String) (st : PageState) (req : List String),
      req ∈ (applyLanguage srv lang st).2 → req.Nodup) := by
  constructor
  · intro lc slice translated j hj hnd
    exact applyChunk_alignment slice lc translated j hj hnd
  · intro srv lang st req hreq
    obtain ⟨-, hmem⟩ := mem_reqs_mem_chunks srv lang st req hreq
    exact (mem_chunks80 _ _ hmem).1.nodup (missingTexts_nodup _ _)

/-- Witness for C6 on a concrete chunk: response `"X"` lands in the cache,
an empty response entry falls back to the requested string. -/
theorem translated_chunk_cache_alignment_witness :
    alookup (applyChunkToCache [] ["a", "b"] ["X", ""]) "a" = some "X" ∧
    alookup (applyChunkToCache [] ["a", "b"] ["X", ""]) "b" = some "b" := by
  constructor
  · exact translated_chunk_cache_alignment.1 [] ["a", "b"] ["X", ""] 0 (by decide) (by decide)
  · exact translated_chunk_cache_alignment.1 [] ["a", "b"] ["X", ""] 1 (by decide) (by decide)

/-! ## Language normalisation (C8) -/
/-- C8: `getLang` always returns a `LANGS` key — the trimmed stored value
when that is a key, `'en'` otherwise (also on absence); `setLang` stores a
`LANGS` key, normalising unsupported codes to `'en'`; `applyLanguage` on an
unsupported code behaves exactly as on `'en'`. -/
theorem language_normalisation (stored : Option String) :
    truthyOpt (alookup LANGS (getLang stored)) = true ∧
    (∀ s, stored = some s → truthyOpt (alookup LANGS (jsTrim s)) = true →
      getLang stored = jsTrim s) ∧
    (∀ s, stored = some s → truthyOpt (alookup LANGS (jsTrim s)) = false →
      getLang stored = "en") ∧
    (stored = none → getLang stored = "en") ∧
    (∀ lang, truthyOpt (alookup LANGS (setLang lang)) = true) ∧
    (∀ lang, truthyOpt (alookup LANGS lang) = false → setLang lang = "en") ∧
    (∀ (srv : Server) (lang : String) (st : PageState),
      truthyOpt (alookup LANGS lang) = false →
      applyLanguage srv lang st = applyLanguage srv "en" st) := by
  refine ⟨?_, ?_, ?_, ?_, ?_, ?_, ?_⟩
  · by_cases h : truthyOpt (alookup LANGS (getLangV stored)) = true
    · rw [getLang, if_pos h]
      exact h
    · rw [getLang, if_neg h]
      decide
  · intro s hst htr
    subst hst
    by_cases hs : s = ""
    · subst hs
      exact absurd htr (by decide)
    · have hv : getLangV (some s) = jsTrim s := by simp [getLangV, hs]
      rw [getLang, hv, if_pos htr]
  · intro s hst hf
    subst hst
    by_cases hs : s = ""
    · subst hs
      decide
    · have hv : getLangV (some s) = jsTrim s := by simp [getLangV, hs]
      rw [getLang, hv, if_neg (by simp [hf])]
  · rintro rfl
    decide
  · intro lang
    by_cases h : truthyOpt (alookup LANGS lang) = true
    · show truthyOpt (alookup LANGS (normLang lang)) = true
      rw [normLang, if_pos h]
      exact h
    · show truthyOpt (alookup LANGS (normLang lang)) = true
      rw [normLang, if_neg h]
      decide
  · intro lang h
    show normLang lang = "en"
    rw [normLang, if_neg (by simp [h])]
  · intro srv lang st h
    have hA : normLang lang = "en" := by
      rw [normLang, if_neg (by simp [h])]
    have hB : normLang "en" = "en" := by decide
    simp only [applyLanguage, hA, hB]

/-- Witness for C8 at concrete stored values. -/
theorem language_normalisation_witness :
    getLang (some " hi ") = "hi" ∧ getLang (some "xx") = "en" ∧ setLang "zz" = "en" := by
  refine ⟨?_, ?_, ?_⟩
  · exact ((language_normalisation (some " hi ")).2.1 " hi " rfl (by decide)).trans (by decide)
  · exact (language_normalisation (some "xx")).2.2.1 "xx" rfl (by decide)
  · exact (language_normalisation (some "xx")).2.2.2.2.2.1 "zz" (by decide)

/-- Witness for C3: with `"Hello"` cached for `hi`, the single issued
request is `["Name"]`, and the theorem places `"Hello"` outside it. -/
theorem cached_strings_not_rerequested_witness :
    ("Hello" : String) ∉ (["Name"] : List String) :=
  cached_strings_not_rerequested wSrvOk "hi" wStCached "Hello" "X" rfl (by decide) rfl
    (by decide) ["Name"] (by decide)

/-- Witness for C4: a failing backend leaves the concrete page untouched. -/
theorem translate_failure_leaves_page_witness :
    (applyLanguage wSrvBad "hi" wStA).1.nodes = wStA.nodes ∧
    (applyLanguage wSrvBad "hi" wStA).1.els = wStA.els :=
  translate_failure_leaves_page wSrvBad "hi" wStA
    ⟨["Hello", "Name"], by decide, "boom", rfl⟩

/-- Witness for C5 at a concrete call: the issued request has at most 80
strings and the request list is an initial run of the 80-chunking. -/
theorem translate_requests_chunked_witness :
    (["Hello", "Name"] : List String).length ≤ 80 ∧
    (∃ k, (applyLanguage wSrvOk "hi" wStA).2 =
      (chunks80 (missingTexts ((alookup wStA.cache (normLang "hi")).getD []) wStA)).take k) :=
  ⟨(translate_requests_chunked wSrvOk "hi" wStA).1 ["Hello", "Name"] (by decide),
    (translate_requests_chunked wSrvOk "hi" wStA).2.1⟩

/-- C2 counterexample, refuting the claimed exact restoration in three
independent ways.  (a) Trimming: an attribute whose pre-translation value
` Name ` has surrounding whitespace is translated (to `X`) and then restored
by `applyLanguage('en')` to the trimmed `Name`, because the capture loop
stores `val.trim()`.  (b) A backend answering with the whitespace-only
translation `" "` makes the translated node and attribute blank; the `en`
pass collects neither (`isTranslatableTextNode` and the `val && val.trim()`
guard reject blanks), so nothing is restored: the node stays `" "`, not
`Hello`, and the placeholder stays `" "`, not ` Name `.  (c) The same
failure arises with a well-behaved backend when the stored cache already
holds the whitespace-only value `" "` for `Hello`. -/
theorem en_restore_attr_counterexample :
    (wStA.els.map (fun e => alookup e.attrs "placeholder")) = [some " Name "] ∧
    ((applyLanguage wSrvOk "hi" wStA).1.els.map (fun e => alookup e.attrs "placeholder")) =
      [some "X"] ∧
    ((applyLanguage wSrvOk "en" (applyLanguage wSrvOk "hi" wStA).1).1.els.map
      (fun e => alookup e.attrs "placeholder")) = [some "Name"] ∧
    ("Name" : String) ≠ " Name " ∧
    (wStA.nodes.map (fun n => n.value)) = ["Hello"] ∧
    ((applyLanguage wSrvBlank "en" (applyLanguage wSrvBlank "hi" wStA).1).1.nodes.map
      (fun n => n.value)) = [" "] ∧
    ((applyLanguage wSrvBlank "en" (applyLanguage wSrvBlank "hi" wStA).1).1.els.map
      (fun e => alookup e.attrs "placeholder")) = [some " "] ∧
    (" " : String) ≠ "Hello" ∧ (" " : String) ≠ " Name " ∧
    wStBlankCache.nodes = wStA.nodes ∧
    ((applyLanguage wSrvOk "en" (applyLanguage wSrvOk "hi" wStBlankCache).1).1.nodes.map
      (fun n => n.value)) = [" "] :=
  ⟨rfl, rfl, rfl, by decide, rfl, rfl, rfl, by decide, by decide, rfl, rfl⟩

/-! ## Capture characterisation (C9 and C2 support) -/
theorem alookup_captureNodeOriginals_some (orig : List (Nat × String)) (ns : List TextNode)
    (id : Nat) (v : String) (h : alookup orig id = some v) :
    alookup (captureNodeOriginals orig ns) id = some v := by
  induction ns generalizing orig with
  | nil => exact h
  | cons n t ih =>
    by_cases hn : (alookup orig n.id).isSome = true
    · rw [show captureNodeOriginals orig (n :: t) = captureNodeOriginals orig t from by
        simp [captureNodeOriginals, hn]]
      exact ih orig h
    · rw [show captureNodeOriginals orig (n :: t) =
          captureNodeOriginals (orig ++ [(n.id, n.value)]) t from by
        simp [captureNodeOriginals, hn]]
      exact ih _ (alookup_of_alookup_append _ _ _ _ _ h)

theorem alookup_captureNodeOriginals_none (orig : List (Nat × String)) (ns : List TextNode)
    (id : Nat) (h : alookup orig id = none) :
    alookup (captureNodeOriginals orig ns) id =
      (ns.find? (fun n => n.id == id)).map (fun n => n.value) := by
  induction ns generalizing orig with
  | nil => simpa using h
  | cons n t ih =>
    by_cases hid : n.id = id
    · have hfind : ((n :: t).find? (fun m => m.id == id)) = some n := by
        rw [List.find?_cons_of_pos]
        simp [hid]
      rw [hfind]
      have hn : (alookup orig n.id).isSome = false := by
        rw [hid, h]; rfl
      rw [show captureNodeOriginals orig (n :: t) =
          captureNodeOriginals (orig ++ [(n.id, n.value)]) t from by
        simp [captureNodeOriginals, hn]]
      have h2 : alookup (orig ++ [(n.id, n.value)]) id = some n.value := by
        rw [alookup_append_single, h, if_pos hid]
      rw [alookup_captureNodeOriginals_some _ _ _ _ h2]
      rfl
    · have hfind : ((n :: t).find? (fun m => m.id == id)) = t.find? (fun m => m.id == id) := by
        rw [List.find?_cons_of_neg]
        simp [hid]
      rw [hfind]
      by_cases hn : (alookup orig n.id).isSome = true
      · rw [show captureNodeOriginals orig (n :: t) = captureNodeOriginals orig t from by
          simp [captureNodeOriginals, hn]]
        exact ih orig h
      · rw [show captureNodeOriginals orig (n :: t) =
            captureNodeOriginals (orig ++ [(n.id, n.value)]) t from by
          simp [captureNodeOriginals, hn]]
        apply ih
        rw [alookup_append_single, h, if_neg hid]

theorem captureAttrOriginal_some (m : List (Nat × List (String × String))) (it : AttrItem)
    (el : Nat) (attr : String) (v : String)
    (h : (alookup m el).bind (fun mm => alookup mm attr) = some v) :
    (alookup (captureAttrOriginal m it) el).bind (fun mm => alookup mm attr) = some v := by
  rw [captureAttrOriginal]
  by_cases hc : (alookup ((alookup m it.elId).getD []) it.attr).isSome = true
  · rw [if_pos hc]; exact h
  · rw [if_neg hc]
    by_cases hel : el = it.elId
    · rw [hel] at h
      rw [hel]
      cases hm : alookup m it.elId with
      | none => rw [hm] at h; simp at h
      | some mm =>
        have h2 : alookup mm attr = some v := by
          rw [hm] at h
          simpa using h
        have hc2 : (alookup mm it.attr).isSome = false := by
          rw [hm] at hc
          simpa using hc
        have hattr : attr ≠ it.attr := by
          intro he
          rw [he] at h2
          rw [h2] at hc2
          simp at hc2
        rw [alookup_aset_self]
        show alookup (aset mm it.attr it.val) attr = some v
        rw [alookup_aset_ne _ _ _ _ hattr]
        exact h2
    · rw [alookup_aset_ne _ _ _ _ hel]
      exact h

theorem captureAttrOriginals_some (m : List (Nat × List (String × String)))
    (items : List AttrItem) (el : Nat) (attr : String) (v : String)
    (h : (alookup m el).bind (fun mm => alookup mm attr) = some v) :
    (alookup (captureAttrOriginals m items) el).bind (fun mm => alookup mm attr) = some v := by
  induction items generalizing m with
  | nil => exact h
  | cons it t ih =>
    rw [show captureAttrOriginals m (it :: t) = captureAttrOriginals (captureAttrOriginal m it) t
        from rfl]
    exact ih _ (captureAttrOriginal_some m it el attr v h)

/-- C9: the two originals maps are write-once: any stored original text
(resp. original attribute value) survives any sequence of later
`applyLanguage` calls unchanged, so the restore target is always the
first-captured value. -/
theorem originals_never_overwritten (calls : List (Server × String)) (st : PageState) :
    (∀ id v, alookup st.origText id = some v →
      alookup (runCalls calls st).origText id = some v) ∧
    (∀ el attr v, (alookup st.origAttrs el).bind (fun mm => alookup mm attr) = some v →
      (alookup (runCalls calls st).origAttrs el).bind (fun mm => alookup mm attr) = some v) := by
  induction calls generalizing st with
  | nil => exact ⟨fun _ _ h => h, fun _ _ _ h => h⟩
  | cons p t ih =>
    rw [show runCalls (p :: t) st = runCalls t (applyLanguage p.1 p.2 st).1 from rfl]
    have hstep : (∀ id v, alookup st.origText id = some v →
        alookup (applyLanguage p.1 p.2 st).1.origText id = some v) ∧
        (∀ el attr v, (alookup st.origAttrs el).bind (fun mm => alookup mm attr) = some v →
          (alookup (applyLanguage p.1 p.2 st).1.origAttrs el).bind
            (fun mm => alookup mm attr) = some v) := by
      by_cases hl : normLang p.2 = "en"
      · constructor
        · intro id v h
          simpa only [applyLanguage, if_pos hl] using h
        · intro el attr v h
          simpa only [applyLanguage, if_pos hl] using h
      · by_cases hok : (runChunksAux p.1 (normLang p.2)
            (chunks80 (missingTexts ((alookup st.cache (normLang p.2)).getD []) st))
            ((alookup st.cache (normLang p.2)).getD [])).2.2 = true
        · constructor
          · intro id v h
            simp only [applyLanguage, if_neg hl, hok, if_true]
            exact alookup_captureNodeOriginals_some _ _ _ _ h
          · intro el attr v h
            simp only [applyLanguage, if_neg hl, hok, if_true]
            exact captureAttrOriginals_some _ _ _ _ _ h
        · rw [Bool.not_eq_true] at hok
          constructor
          · intro id v h
            simp only [applyLanguage, if_neg hl, hok, if_false]
            exact alookup_captureNodeOriginals_some _ _ _ _ h
          · intro el attr v h
            simp only [applyLanguage, if_neg hl, hok, if_false]
            exact captureAttrOriginals_some _ _ _ _ _ h
    exact ⟨fun id v h => (ih _).1 id v (hstep.1 id v h),
      fun el attr v h => (ih _).2 el attr v (hstep.2 el attr v h)⟩

/-- Witness for C9: across a translate / restore / translate sequence, the
captured originals survive verbatim. -/
theorem originals_never_overwritten_witness :
    alookup (runCalls [(wSrvOk, "hi"), (wSrvOk, "en"), (wSrvOk, "ta")] wStOrig).origText 0 =
      some "Orig" ∧
    (alookup (runCalls [(wSrvOk, "hi"), (wSrvOk, "en"), (wSrvOk, "ta")] wStOrig).origAttrs 1).bind
      (fun mm => alookup mm "placeholder") = some "P0" :=
  ⟨(originals_never_overwritten [(wSrvOk, "hi"), (wSrvOk, "en"), (wSrvOk, "ta")] wStOrig).1
      0 "Orig" rfl,
    (originals_never_overwritten [(wSrvOk, "hi"), (wSrvOk, "en"), (wSrvOk, "ta")] wStOrig).2
      1 "placeholder" "P0" rfl⟩

theorem goodLC_lookup (lc : List (String × String)) (hg : GoodLC lc) (k v : String)
    (h : alookup lc k = some v) : v = "" ∨ jsTrim v ≠ "" :=
  hg (k, v) (alookup_mem _ _ _ h)

theorem goodLC_aset (lc : List (String × String)) (k v : String) (hg : GoodLC lc)
    (hv : v = "" ∨ jsTrim v ≠ "") : GoodLC (aset lc k v) := by
  intro p hp
  rcases mem_aset _ _ _ _ hp with he | hm
  · rw [he]
    exact hv
  · exact hg p hm

theorem goodCache_aset (c : List (String × List (String × String))) (lang : String)
    (lc : List (String × String)) (hc : GoodCache c) (hlc : GoodLC lc) :
    GoodCache (aset c lang lc) := by
  intro q hq
  rcases mem_aset _ _ _ _ hq with he | hm
  · rw [he]
    exact hlc
  · exact hc q hm

theorem goodLC_getD (c : List (String × List (String × String))) (lang : String)
    (hc : GoodCache c) : GoodLC ((alookup c lang).getD []) := by
  cases hm : alookup c lang with
  | none => intro p hp; simp at hp
  | some lc => exact hc (lang, lc) (alookup_mem _ _ _ hm)

theorem goodLC_applyChunk (slice : List String) :
    ∀ (lc : List (String × String)) (ts : List String), GoodLC lc →
      (∀ s ∈ slice, jsTrim s ≠ "") → (∀ t ∈ ts, t = "" ∨ jsTrim t ≠ "") →
      GoodLC (applyChunkToCache lc slice ts) := by
  induction slice with
  | nil =>
    intro lc ts hg _ _
    cases ts <;> exact hg
  | cons s ss ih =>
    intro lc ts hg hslice hts
    have hs : jsTrim s ≠ "" := hslice s (List.mem_cons_self _ _)
    have hss : ∀ x ∈ ss, jsTrim x ≠ "" := fun x hx => hslice x (List.mem_cons_of_mem _ hx)
    cases ts with
    | nil =>
      show GoodLC (applyChunkToCache (aset lc s s) ss [])
      exact ih _ [] (goodLC_aset _ _ _ hg (Or.inr hs)) hss (by simp)
    | cons t ts2 =>
      show GoodLC (applyChunkToCache (aset lc s (if t = "" then s else t)) ss ts2)
      refine ih _ ts2 (goodLC_aset _ _ _ hg ?_) hss
        (fun x hx => hts x (List.mem_cons_of_mem _ hx))
      by_cases ht : t = ""
      · rw [if_pos ht]
        exact Or.inr hs
      · rw [if_neg ht]
        rcases hts t (List.mem_cons_self _ _) with he | hne
        · exact absurd he ht
        · exact Or.inr hne

theorem goodLC_runChunks (srv : Server) (lang : String) (cs : List (List String)) :
    ∀ lc : List (String × String), GoodLC lc →
      (∀ c ∈ cs, ∀ s ∈ c, jsTrim s ≠ "") → GoodServer srv →
      GoodLC (runChunksAux srv lang cs lc).2.1 := by
  induction cs with
  | nil =>
    intro lc hg _ _
    exact hg
  | cons c cs ih =>
    intro lc hg hcs hsrv
    simp only [runChunksAux]
    cases hb : translateBatch (srv lang c) with
    | ok ts =>
      dsimp only
      exact ih _ (goodLC_applyChunk c lc ts hg (hcs c (List.mem_cons_self _ _))
          (hsrv lang c ts hb))
        (fun x hx => hcs x (List.mem_cons_of_mem _ hx)) hsrv
    | error e => exact hg

/-- `isTranslatableTextNode` characterised. -/
theorem isTranslatable_iff (n : TextNode) :
    isTranslatableTextNode n = true ↔
      n.value ≠ "" ∧ jsTrim n.value ≠ "" ∧
      ∃ tag, n.parentTag = some tag ∧ n.noTranslate = false ∧ tag ≠ "" ∧
        tag ≠ "SCRIPT" ∧ tag ≠ "STYLE" ∧ tag ≠ "NOSCRIPT" := by
  unfold isTranslatableTextNode
  by_cases h1 : n.value = ""
  · simp [h1]
  · rw [if_neg h1]
    by_cases h2 : jsTrim n.value = ""
    · simp [h1, h2]
    · rw [if_neg h2]
      cases hp : n.parentTag with
      | none => simp [h1, h2, hp]
      | some tag =>
        cases hnt : n.noTranslate with
        | true => simp [h1, h2, hp, hnt]
        | false =>
          by_cases h3 : tag = ""
          · simp [h1, h2, hp, hnt, h3]
          · by_cases h4 : tag = "SCRIPT" <;> by_cases h5 : tag = "STYLE" <;>
              by_cases h6 : tag = "NOSCRIPT" <;>
              simp [h1, h2, hp, hnt, h3, h4, h5, h6]

/-- What membership in `collectElAttrs` means. -/
theorem mem_collectElAttrs (el : AttrElem) (it : AttrItem) (h : it ∈ collectElAttrs el) :
    it.elId = el.id ∧ it.attr ∈ ATTR_NAMES ∧
    ∃ v, alookup el.attrs it.attr = some v ∧ v ≠ "" ∧ jsTrim v ≠ "" ∧ it.val = jsTrim v := by
  obtain ⟨attr, hmem, hf⟩ := List.mem_filterMap.mp h
  unfold collectElAttr at hf
  cases hv : alookup el.attrs attr with
  | none => rw [hv] at hf; simp at hf
  | some v =>
    rw [hv] at hf
    dsimp only at hf
    by_cases hc : v ≠ "" ∧ jsTrim v ≠ ""
    · rw [if_pos hc] at hf
      obtain rfl := Option.some.inj hf
      exact ⟨rfl, hmem, v, hv, hc.1, hc.2, rfl⟩
    · rw [if_neg hc] at hf
      simp at hf

/-- Membership introduction for `collectElAttrs`. -/
theorem mem_collectElAttrs_intro (el : AttrElem) (attr v : String)
    (ha : attr ∈ ATTR_NAMES) (hv : alookup el.attrs attr = some v) (h1 : v ≠ "")
    (h2 : jsTrim v ≠ "") :
    (⟨el.id, attr, jsTrim v⟩ : AttrItem) ∈ collectElAttrs el := by
  apply List.mem_filterMap.mpr
  refine ⟨attr, ha, ?_⟩
  unfold collectElAttr
  rw [hv]
  dsimp only
  rw [if_pos ⟨h1, h2⟩]

/-- What membership in `collectTranslatableAttributes` means. -/
theorem mem_collectAttrs (els : List AttrElem) (it : AttrItem)
    (h : it ∈ collectTranslatableAttributes els) :
    ∃ el ∈ els, el.matchesSelector = true ∧ el.noTranslate = false ∧
      it ∈ collectElAttrs el := by
  obtain ⟨el, hel, hit⟩ := List.mem_flatMap.mp h
  have hmem := List.mem_of_mem_filter hel
  have hpred := List.of_mem_filter hel
  have hms : el.matchesSelector = true := by
    cases hx : el.matchesSelector
    · rw [hx] at hpred; simp at hpred
    · rfl
  have hnt : el.noTranslate = false := by
    cases hx : el.noTranslate
    · rfl
    · rw [hx] at hpred; simp at hpred
  exact ⟨el, hmem, hms, hnt, hit⟩

/-- Membership introduction for `collectTranslatableAttributes`. -/
theorem mem_collectAttrs_intro (els : List AttrElem) (el : AttrElem) (hmem : el ∈ els)
    (hm : el.matchesSelector = true) (hn : el.noTranslate = false) (it : AttrItem)
    (hit : it ∈ collectElAttrs el) : it ∈ collectTranslatableAttributes els := by
  apply List.mem_flatMap.mpr
  refine ⟨el, List.mem_filter.mpr ⟨hmem, ?_⟩, hit⟩
  simp [hm, hn]

/-- Every deduplicated page text is a non-empty fixed point of `jsTrim`. -/
theorem mem_pageTexts (st : PageState) (t : String) (h : t ∈ pageTexts st) :
    t ≠ "" ∧ jsTrim t = t := by
  unfold pageTexts at h
  rw [jsSetDedup_mem] at h
  have hmem := List.mem_of_mem_filter h
  have hpred := List.of_mem_filter h
  have hne : t ≠ "" := by simpa using hpred
  refine ⟨hne, ?_⟩
  rcases List.mem_append.mp hmem with hA | hB
  · obtain ⟨n, _, hn⟩ := List.mem_map.mp hA
    rw [← hn, jsTrim_idem]
  · obtain ⟨it, hit, hval⟩ := List.mem_map.mp hB
    obtain ⟨el, _, _, _, hel⟩ := mem_collectAttrs st.els it hit
    obtain ⟨-, -, v, -, -, -, hv⟩ := mem_collectElAttrs el it hel
    rw [← hval, hv, jsTrim_idem]

/-- Every missing text is a non-blank fixed point of `jsTrim`. -/
theorem mem_missing_trim (lc : List (String × String)) (st : PageState) (t : String)
    (h : t ∈ missingTexts lc st) : jsTrim t ≠ "" := by
  have h2 := mem_pageTexts st t (List.mem_of_mem_filter h)
  rw [h2.2]
  exact h2.1

/-! ## Attribute-fold characterisation (C2 support) -/
theorem get_map_eq {α β : Type} (f : α → β) (l : List α) (i : Nat)
    (h2 : i < l.length) (h : i < (l.map f).length) :
    (l.map f).get ⟨i, h⟩ = f (l.get ⟨i, h2⟩) := by
  simp only [List.get_eq_getElem, List.getElem_map]

theorem updateEl_length (els : List AttrElem) (id : Nat) (f : AttrElem → AttrElem) :
    (updateEl els id f).length = els.length := by
  simp [updateEl]

theorem updateEl_get (els : List AttrElem) (id : Nat) (f : AttrElem → AttrElem) (i : Nat)
    (h : i < els.length) (h2 : i < (updateEl els id f).length) :
    (updateEl els id f).get ⟨i, h2⟩ =
      if (els.get ⟨i, h⟩).id = id then f (els.get ⟨i, h⟩) else els.get ⟨i, h⟩ := by
  simp only [updateEl, List.get_eq_getElem, List.getElem_map]

theorem attrFoldStep_length (cond : AttrItem → Bool) (val : AttrItem → String)
    (els : List AttrElem) (it : AttrItem) :
    (attrFoldStep cond val els it).length = els.length := by
  unfold attrFoldStep
  by_cases hc : cond it = true
  · rw [if_pos hc, updateEl_length]
  · rw [if_neg hc]

theorem attrFold_length (cond : AttrItem → Bool) (val : AttrItem → String)
    (items : List AttrItem) : ∀ els : List AttrElem,
    (items.foldl (attrFoldStep cond val) els).length = els.length := by
  induction items with
  | nil => intro els; rfl
  | cons it t ih =>
    intro els
    show (t.foldl (attrFoldStep cond val) (attrFoldStep cond val els it)).length = els.length
    rw [ih, attrFoldStep_length]

theorem find?_eq_some_unique {α : Type} (p : α → Bool) (l : List α) (a : α) (ha : a ∈ l)
    (hpa : p a = true) (huniq : ∀ x ∈ l, p x = true → x = a) : l.find? p = some a := by
  induction l with
  | nil => simp at ha
  | cons b t ih =>
    by_cases hpb : p b = true
    · rw [List.find?_cons_of_pos _ hpb, huniq b (List.mem_cons_self _ _) hpb]
    · rw [List.find?_cons_of_neg _ hpb]
      apply ih
      · rcases List.mem_cons.mp ha with rfl | hm
        · exact absurd hpa hpb
        · exact hm
      · exact fun x hx hpx => huniq x (List.mem_cons_of_mem _ hx) hpx

theorem attrFoldStep_getElem (cond : AttrItem → Bool) (val : AttrItem → String)
    (els : List AttrElem) (it : AttrItem) (i : Nat) :
    (attrFoldStep cond val els it)[i]? = (els[i]?).map (stepEl cond val it) := by
  by_cases hc : cond it = true
  · rw [attrFoldStep, if_pos hc, updateEl, List.getElem?_map]
    cases he : els[i]? <;> simp [stepEl, hc]
  · rw [attrFoldStep, if_neg hc]
    cases he : els[i]? <;> simp [he, stepEl, hc]

theorem stepEl_fields (cond : AttrItem → Bool) (val : AttrItem → String) (it : AttrItem)
    (e : AttrElem) :
    (stepEl cond val it e).id = e.id ∧
    (stepEl cond val it e).matchesSelector = e.matchesSelector ∧
    (stepEl cond val it e).noTranslate = e.noTranslate := by
  unfold stepEl
  by_cases hc : cond it = true
  · rw [if_pos hc]
    by_cases hid : e.id = it.elId
    · rw [if_pos hid]; exact ⟨rfl, rfl, rfl⟩
    · rw [if_neg hid]; exact ⟨rfl, rfl, rfl⟩
  · rw [if_neg hc]; exact ⟨rfl, rfl, rfl⟩

theorem stepEl_lookup (cond : AttrItem → Bool) (val : AttrItem → String) (it : AttrItem)
    (e : AttrElem) (attr : String) :
    alookup (stepEl cond val it e).attrs attr =
      if cond it = true ∧ it.elId = e.id ∧ it.attr = attr then some (val it)
      else alookup e.attrs attr := by
  unfold stepEl
  by_cases hc : cond it = true
  · rw [if_pos hc]
    by_cases hid : e.id = it.elId
    · rw [if_pos hid]
      by_cases hattr : it.attr = attr
      · subst hattr
        rw [if_pos ⟨hc, hid.symm, rfl⟩]
        exact alookup_aset_self _ _ _
      · rw [if_neg (fun hcon => hattr hcon.2.2)]
        exact alookup_aset_ne _ _ _ _ (fun he => hattr he.symm)
    · rw [if_neg hid, if_neg (fun hcon => hid hcon.2.1.symm)]
  · rw [if_neg hc, if_neg (fun hcon => hc hcon.1)]

theorem attrFold_fieldsAt (cond : AttrItem → Bool) (val : AttrItem → String)
    (items : List AttrItem) : ∀ (els : List AttrElem) (i : Nat) (e2 : AttrElem),
    (items.foldl (attrFoldStep cond val) els)[i]? = some e2 →
    ∃ e, els[i]? = some e ∧ e2.id = e.id ∧ e2.matchesSelector = e.matchesSelector ∧
      e2.noTranslate = e.noTranslate := by
  induction items with
  | nil => exact fun els i e2 h => ⟨e2, h, rfl, rfl, rfl⟩
  | cons it t ih =>
    intro els i e2 h
    obtain ⟨e1, he1, hid, hm, hn⟩ := ih (attrFoldStep cond val els it) i e2 h
    rw [attrFoldStep_getElem] at he1
    cases he : els[i]? with
    | none => rw [he] at he1; simp at he1
    | some e =>
      rw [he] at he1
      obtain rfl : stepEl cond val it e = e1 := by simpa using he1
      have hf := stepEl_fields cond val it e
      exact ⟨e, rfl, hid.trans hf.1, hm.trans hf.2.1, hn.trans hf.2.2⟩

theorem attrFold_lookupAt (cond : AttrItem → Bool) (val : AttrItem → String)
    (items : List AttrItem) : ∀ (els : List AttrElem) (i : Nat) (e e2 : AttrElem)
    (attr : String), els[i]? = some e →
    (items.foldl (attrFoldStep cond val) els)[i]? = some e2 →
    items.Pairwise (fun a b => a.elId ≠ b.elId ∨ a.attr ≠ b.attr) →
    alookup e2.attrs attr =
      (match items.find? (fun x => cond x && (x.elId == e.id) && (x.attr == attr)) with
       | some x => some (val x)
       | none => alookup e.attrs attr) := by
  induction items with
  | nil =>
    intro els i e e2 attr he h2 _
    have h2b : els[i]? = some e2 := h2
    rw [he] at h2b
    obtain rfl := Option.some.inj h2b
    rfl
  | cons it t ih =>
    intro els i e e2 attr he h2 hdist
    have he1 : (attrFoldStep cond val els it)[i]? = some (stepEl cond val it e) := by
      rw [attrFoldStep_getElem, he]
      rfl
    have hih := ih (attrFoldStep cond val els it) i (stepEl cond val it e) e2 attr he1 h2
      (List.pairwise_cons.mp hdist).2
    rw [(stepEl_fields cond val it e).1] at hih
    by_cases hmatch : cond it = true ∧ it.elId = e.id ∧ it.attr = attr
    · have hp : (cond it && (it.elId == e.id) && (it.attr == attr)) = true := by
        simp [hmatch.1, hmatch.2.1, hmatch.2.2]
      have hfind : List.find? (fun x => cond x && (x.elId == e.id) && (x.attr == attr))
          (it :: t) = some it := by
        unfold List.find?
        rw [hp]
      rw [hfind]
      have hnone : t.find? (fun x => cond x && (x.elId == e.id) && (x.attr == attr)) = none := by
        apply List.find?_eq_none.mpr
        intro x hx hpx
        simp only [Bool.and_eq_true, beq_iff_eq] at hpx
        rcases (List.pairwise_cons.mp hdist).1 x hx with hrel | hrel
        · exact hrel (hmatch.2.1.trans hpx.1.2.symm)
        · exact hrel (hmatch.2.2.trans hpx.2.symm)
      rw [hnone] at hih
      rw [hih, stepEl_lookup, if_pos hmatch]
    · have hpneg : ¬ ((cond it && (it.elId == e.id) && (it.attr == attr)) = true) := by
        intro hp
        simp only [Bool.and_eq_true, beq_iff_eq] at hp
        exact hmatch ⟨hp.1.1, hp.1.2, hp.2⟩
      have hfalse : (cond it && (it.elId == e.id) && (it.attr == attr)) = false :=
        Bool.eq_false_iff.mpr hpneg
      have hfind : List.find? (fun x => cond x && (x.elId == e.id) && (x.attr == attr))
          (it :: t) = List.find? (fun x => cond x && (x.elId == e.id) && (x.attr == attr)) t := by
        conv_lhs => unfold List.find?
        rw [hfalse]
      rw [hfind, hih]
      cases hf : t.find? (fun x => cond x && (x.elId == e.id) && (x.attr == attr)) with
      | some x => rfl
      | none =>
        show alookup (stepEl cond val it e).attrs attr = alookup e.attrs attr
        rw [stepEl_lookup, if_neg hmatch]

theorem attrFold_lookup_of_match (cond : AttrItem → Bool) (val : AttrItem → String)
    (items : List AttrItem) (els : List AttrElem) (i : Nat) (e e2 : AttrElem)
    (he : els[i]? = some e)
    (h2 : (items.foldl (attrFoldStep cond val) els)[i]? = some e2)
    (hdist : items.Pairwise (fun a b => a.elId ≠ b.elId ∨ a.attr ≠ b.attr))
    (x : AttrItem) (hx : x ∈ items) (hcond : cond x = true) (hel : x.elId = e.id)
    (attr : String) (hattr : x.attr = attr) :
    alookup e2.attrs attr = some (val x) := by
  rw [attrFold_lookupAt cond val items els i e e2 attr he h2 hdist]
  have hfind : items.find? (fun y => cond y && (y.elId == e.id) && (y.attr == attr)) =
      some x := by
    apply find?_eq_some_unique _ _ _ hx (by simp [hcond, hel, hattr])
    intro y hy hpy
    simp only [Bool.and_eq_true, beq_iff_eq] at hpy
    by_contra hne
    rcases List.Pairwise.forall (fun a b hr => hr.imp Ne.symm Ne.symm) hdist hy hx hne
      with hrel | hrel
    · exact hrel (hpy.1.2.trans hel.symm)
    · exact hrel (hpy.2.trans hattr.symm)
  rw [hfind]

theorem attrFold_lookup_of_nomatch (cond : AttrItem → Bool) (val : AttrItem → String)
    (items : List AttrItem) (els : List AttrElem) (i : Nat) (e e2 : AttrElem)
    (attr : String) (he : els[i]? = some e)
    (h2 : (items.foldl (attrFoldStep cond val) els)[i]? = some e2)
    (hdist : items.Pairwise (fun a b => a.elId ≠ b.elId ∨ a.attr ≠ b.attr))
    (hno : ∀ x ∈ items, ¬(cond x = true ∧ x.elId = e.id ∧ x.attr = attr)) :
    alookup e2.attrs attr = alookup e.attrs attr := by
  rw [attrFold_lookupAt cond val items els i e e2 attr he h2 hdist]
  have hfind : items.find? (fun y => cond y && (y.elId == e.id) && (y.attr == attr)) =
      none := by
    apply List.find?_eq_none.mpr
    intro x hx hpx
    simp only [Bool.and_eq_true, beq_iff_eq] at hpx
    exact hno x hx ⟨hpx.1.1, hpx.1.2, hpx.2⟩
  rw [hfind]

/-! ## Pairwise identity transfer and collected-item distinctness -/
theorem mem_of_getElemSome {α : Type} (l : List α) (i : Nat) (a : α)
    (h : l[i]? = some a) : a ∈ l := by
  have h2 : i < l.length := by
    by_contra hc
    rw [List.getElem?_eq_none (by omega)] at h
    exact absurd h (by simp)
  rw [List.getElem?_eq_getElem h2] at h
  obtain rfl := Option.some.inj h
  exact List.getElem_mem h2

theorem pairwise_ne_transfer {α β : Type} (f : α → β) (l0 l : List α)
    (hlen : l.length = l0.length)
    (hid : ∀ (i : Nat) (x0 x : α), l0[i]? = some x0 → l[i]? = some x → f x = f x0)
    (h0 : l0.Pairwise (fun a b => f a ≠ f b)) : l.Pairwise (fun a b => f a ≠ f b) := by
  rw [List.pairwise_iff_get] at h0 ⊢
  intro i j hij
  have hi0 : (i : Nat) < l0.length := by rw [← hlen]; exact i.isLt
  have hj0 : (j : Nat) < l0.length := by rw [← hlen]; exact j.isLt
  have e1 : f (l.get i) = f (l0.get ⟨(i : Nat), hi0⟩) := by
    apply hid i
    · rw [List.getElem?_eq_getElem hi0, List.get_eq_getElem]
    · rw [List.getElem?_eq_getElem i.isLt, List.get_eq_getElem]
  have e2 : f (l.get j) = f (l0.get ⟨(j : Nat), hj0⟩) := by
    apply hid j
    · rw [List.getElem?_eq_getElem hj0, List.get_eq_getElem]
    · rw [List.getElem?_eq_getElem j.isLt, List.get_eq_getElem]
  rw [e1, e2]
  exact h0 _ _ (Fin.mk_lt_mk.mpr hij)

theorem pairwise_filterMap_rel {α β : Type} (f : α → Option β) (R : α → α → Prop)
    (S : β → β → Prop) (l : List α)
    (h : ∀ a b x y, R a b → f a = some x → f b = some y → S x y)
    (hl : l.Pairwise R) : (l.filterMap f).Pairwise S := by
  induction l with
  | nil => simp
  | cons a t ih =>
    obtain ⟨ha, ht⟩ := List.pairwise_cons.mp hl
    cases hf : f a with
    | none =>
      rw [List.filterMap_cons_none hf]
      exact ih ht
    | some b =>
      rw [List.filterMap_cons_some hf]
      refine List.pairwise_cons.mpr ⟨?_, ih ht⟩
      intro y hy
      obtain ⟨x, hx, hfx⟩ := List.mem_filterMap.mp hy
      exact h a x b y (ha x hx) hf hfx

theorem collectElAttr_attr (el : AttrElem) (a : String) (x : AttrItem)
    (h : collectElAttr el a = some x) : x.attr = a ∧ x.elId = el.id := by
  unfold collectElAttr at h
  cases hv : alookup el.attrs a with
  | none => rw [hv] at h; simp at h
  | some v =>
    rw [hv] at h
    dsimp only at h
    by_cases hc : v ≠ "" ∧ jsTrim v ≠ ""
    · rw [if_pos hc] at h
      obtain rfl := Option.some.inj h
      exact ⟨rfl, rfl⟩
    · rw [if_neg hc] at h; simp at h

theorem attrNames_pairwise : ATTR_NAMES.Pairwise (fun a b => a ≠ b) := by decide

theorem collectElAttrs_pairwise (el : AttrElem) :
    (collectElAttrs el).Pairwise (fun a b => a.attr ≠ b.attr) :=
  pairwise_filterMap_rel (collectElAttr el) (fun a b => a ≠ b) _ ATTR_NAMES
    (fun a b x y hab hfa hfb => by
      rw [(collectElAttr_attr el a x hfa).1, (collectElAttr_attr el b y hfb).1]
      exact hab)
    attrNames_pairwise

theorem collect_items_pairwise (els : List AttrElem)
    (hed : els.Pairwise (fun a b => a.id ≠ b.id)) :
    (collectTranslatableAttributes els).Pairwise
      (fun a b => a.elId ≠ b.elId ∨ a.attr ≠ b.attr) := by
  unfold collectTranslatableAttributes
  rw [List.flatMap_def]
  apply List.pairwise_flatten.mpr
  constructor
  · intro s hs
    obtain ⟨el, hel, rfl⟩ := List.mem_map.mp hs
    exact (collectElAttrs_pairwise el).imp (fun h => Or.inr h)
  · apply List.pairwise_map.mpr
    have hf : (els.filter (fun el => el.matchesSelector && !el.noTranslate)).Pairwise
        (fun a b => a.id ≠ b.id) :=
      List.Pairwise.sublist (List.filter_sublist els) hed
    refine hf.imp ?_
    intro a b hab x hx y hy
    exact Or.inl (by
      rw [(mem_collectElAttrs a x hx).1, (mem_collectElAttrs b y hy).1]
      exact hab)

/-! ## `find?` over the collected nodes -/
theorem find_in_collect (nodes : List TextNode)
    (hnd : nodes.Pairwise (fun a b => a.id ≠ b.id)) (n0 : TextNode) (hmem0 : n0 ∈ nodes)
    (n : TextNode)
    (hfind : (collectTextNodes nodes).find? (fun m => m.id == n0.id) = some n) :
    n = n0 ∧ isTranslatableTextNode n = true := by
  have hmem := List.mem_of_find?_eq_some hfind
  have hp : n.id = n0.id := by simpa using List.find?_some hfind
  have htr : isTranslatableTextNode n = true := List.of_mem_filter hmem
  have hmem2 : n ∈ nodes := List.mem_of_mem_filter hmem
  by_cases hne : n = n0
  · exact ⟨hne, htr⟩
  · exact absurd hp
      (List.Pairwise.forall (by intro a b hr; exact hr.symm) hnd hmem2 hmem0 hne)

theorem find_collect_none (nodes : List TextNode)
    (hnd : nodes.Pairwise (fun a b => a.id ≠ b.id)) (n0 : TextNode) (hmem0 : n0 ∈ nodes)
    (hnt : isTranslatableTextNode n0 = false) :
    (collectTextNodes nodes).find? (fun m => m.id == n0.id) = none := by
  apply List.find?_eq_none.mpr
  intro m hm hpm
  have hid : m.id = n0.id := by simpa using hpm
  have htr := List.of_mem_filter hm
  have hmm : m ∈ nodes := List.mem_of_mem_filter hm
  by_cases hne : m = n0
  · rw [hne] at htr
    rw [htr] at hnt
    exact absurd hnt (by simp)
  · exact absurd hid
      (List.Pairwise.forall (by intro a b hr; exact hr.symm) hnd hmm hmem0 hne)

theorem find_collect_some (nodes : List TextNode) (n0 : TextNode) (hmem0 : n0 ∈ nodes)
    (htr : isTranslatableTextNode n0 = true) :
    ∃ n, (collectTextNodes nodes).find? (fun m => m.id == n0.id) = some n := by
  cases hf : (collectTextNodes nodes).find? (fun m => m.id == n0.id) with
  | some n => exact ⟨n, rfl⟩
  | none =>
    exfalso
    have := List.find?_eq_none.mp hf n0 (List.mem_filter.mpr ⟨hmem0, htr⟩)
    simp at this

theorem translatable_rev (n0 n : TextNode) (hp : n.parentTag = n0.parentTag)
    (hn : n.noTranslate = n0.noTranslate) (h : isTranslatableTextNode n = true)
    (hv0 : n0.value ≠ "") (ht0 : jsTrim n0.value ≠ "") :
    isTranslatableTextNode n0 = true := by
  rw [isTranslatable_iff] at h ⊢
  refine ⟨hv0, ht0, ?_⟩
  rw [← hp, ← hn]
  exact h.2.2

theorem translatable_of (n0 n : TextNode) (hp : n.parentTag = n0.parentTag)
    (hn : n.noTranslate = n0.noTranslate) (h0 : isTranslatableTextNode n0 = true)
    (hv : n.value ≠ "") (ht : jsTrim n.value ≠ "") :
    isTranslatableTextNode n = true := by
  rw [isTranslatable_iff] at h0 ⊢
  refine ⟨hv, ht, ?_⟩
  rw [hp, hn]
  exact h0.2.2

theorem restoreEnNode_fields (orig : List (Nat × String)) (m : TextNode) :
    (restoreEnNode orig m).id = m.id ∧ (restoreEnNode orig m).parentTag = m.parentTag ∧
    (restoreEnNode orig m).noTranslate = m.noTranslate := by
  unfold restoreEnNode
  by_cases ht : isTranslatableTextNode m = true
  · rw [if_pos ht]
    cases ho : alookup orig m.id
    · exact ⟨rfl, rfl, rfl⟩
    · exact ⟨rfl, rfl, rfl⟩
  · rw [if_neg ht]
    exact ⟨rfl, rfl, rfl⟩

theorem restoreEnNode_value (orig : List (Nat × String)) (m : TextNode) :
    (restoreEnNode orig m).value =
      if isTranslatableTextNode m = true then
        (match alookup orig m.id with | some o => o | none => m.value)
      else m.value := by
  unfold restoreEnNode
  by_cases ht : isTranslatableTextNode m = true
  · rw [if_pos ht, if_pos ht]
    cases ho : alookup orig m.id
    · rfl
    · rfl
  · rw [if_neg ht, if_neg ht]

theorem applyNodeTranslation_fields (orig : List (Nat × String))
    (lc : List (String × String)) (n : TextNode) :
    (applyNodeTranslation orig lc n).id = n.id ∧
    (applyNodeTranslation orig lc n).parentTag = n.parentTag ∧
    (applyNodeTranslation orig lc n).noTranslate = n.noTranslate := by
  unfold applyNodeTranslation
  by_cases hk : jsTrim (applyNodeOrig orig n) = ""
  · rw [if_pos hk]
    exact ⟨rfl, rfl, rfl⟩
  · rw [if_neg hk]
    exact ⟨rfl, rfl, rfl⟩

theorem applyNodeOrig_of_some (orig : List (Nat × String)) (n : TextNode) (v : String)
    (hv : alookup orig n.id = some v) (hne : v ≠ "") : applyNodeOrig orig n = v := by
  unfold applyNodeOrig
  rw [hv]
  dsimp only
  rw [if_neg hne]

/-! ## `find?` with an explicit target label -/
theorem find_in_collect_id (nodes : List TextNode)
    (hnd : nodes.Pairwise (fun a b => a.id ≠ b.id)) (n : TextNode) (hmem : n ∈ nodes)
    (id : Nat) (hid : n.id = id) (n2 : TextNode)
    (hfind : (collectTextNodes nodes).find? (fun m => m.id == id) = some n2) :
    n2 = n ∧ isTranslatableTextNode n2 = true := by
  have hmemc := List.mem_of_find?_eq_some hfind
  have hp : n2.id = id := by simpa using List.find?_some hfind
  have htr : isTranslatableTextNode n2 = true := List.of_mem_filter hmemc
  have hmem2 : n2 ∈ nodes := List.mem_of_mem_filter hmemc
  by_cases hne : n2 = n
  · exact ⟨hne, htr⟩
  · exact absurd (hp.trans hid.symm)
      (List.Pairwise.forall (by intro a b hr; exact hr.symm) hnd hmem2 hmem hne)

theorem find_collect_none_id (nodes : List TextNode)
    (hnd : nodes.Pairwise (fun a b => a.id ≠ b.id)) (n : TextNode) (hmem : n ∈ nodes)
    (id : Nat) (hid : n.id = id) (hnt : isTranslatableTextNode n = false) :
    (collectTextNodes nodes).find? (fun m => m.id == id) = none := by
  apply List.find?_eq_none.mpr
  intro m hm hpm
  have hidm : m.id = id := by simpa using hpm
  have htr := List.of_mem_filter hm
  have hmm : m ∈ nodes := List.mem_of_mem_filter hm
  by_cases hne : m = n
  · rw [hne] at htr
    rw [htr] at hnt
    exact absurd hnt (by simp)
  · exact absurd (hidm.trans hid.symm)
      (List.Pairwise.forall (by intro a b hr; exact hr.symm) hnd hmm hmem hne)

theorem find_collect_some_id (nodes : List TextNode) (n : TextNode) (hmem : n ∈ nodes)
    (htr : isTranslatableTextNode n = true) (id : Nat) (hid : n.id = id) :
    ∃ n2, (collectTextNodes nodes).find? (fun m => m.id == id) = some n2 := by
  cases hf : (collectTextNodes nodes).find? (fun m => m.id == id) with
  | some n2 => exact ⟨n2, rfl⟩
  | none =>
    exfalso
    have := List.find?_eq_none.mp hf n (List.mem_filter.mpr ⟨hmem, htr⟩)
    rw [hid] at this
    simp at this

/-- Characterisation of the attribute-originals capture for a pair that had
no stored original: the first collected item for that element/attribute pair
(if any) provides the stored value. -/
theorem captureAttrOriginals_none (m : List (Nat × List (String × String)))
    (items : List AttrItem) : ∀ (el : Nat) (attr : String),
    (alookup m el).bind (fun mm => alookup mm attr) = none →
    (alookup (captureAttrOriginals m items) el).bind (fun mm => alookup mm attr) =
      (items.find? (fun it => (it.elId == el) && (it.attr == attr))).map
        (fun it => it.val) := by
  induction items generalizing m with
  | nil =>
    intro el attr h
    simpa using h
  | cons it t ih =>
    intro el attr h
    rw [show captureAttrOriginals m (it :: t) =
        captureAttrOriginals (captureAttrOriginal m it) t from rfl]
    by_cases hmatch : it.elId = el ∧ it.attr = attr
    · obtain ⟨he, ha⟩ := hmatch
      have hp : ((it.elId == el) && (it.attr == attr)) = true := by simp [he, ha]
      have hfind : (it :: t).find? (fun x => (x.elId == el) && (x.attr == attr)) = some it := by
        unfold List.find?
        rw [hp]
      rw [hfind]
      have hstep : (alookup (captureAttrOriginal m it) el).bind (fun mm => alookup mm attr) =
          some it.val := by
        unfold captureAttrOriginal
        have hc : (alookup ((alookup m it.elId).getD []) it.attr).isSome = false := by
          rw [he]
          cases hm : alookup m el with
          | none => rfl
          | some mm =>
            have h2 : alookup mm attr = none := by rw [hm] at h; simpa using h
            show (alookup mm it.attr).isSome = false
            rw [ha, h2]
            rfl
        rw [if_neg (by simp [hc]), he, ha]
        rw [alookup_aset_self]
        show alookup (aset ((alookup m el).getD []) attr it.val) attr = some it.val
        exact alookup_aset_self _ _ _
      rw [captureAttrOriginals_some _ t el attr it.val hstep]
      rfl
    · have hp : ((it.elId == el) && (it.attr == attr)) = false := by
        rcases not_and_or.mp hmatch with hne | hne <;> simp [hne]
      have hfind : (it :: t).find? (fun x => (x.elId == el) && (x.attr == attr)) =
          t.find? (fun x => (x.elId == el) && (x.attr == attr)) := by
        conv_lhs => unfold List.find?
        rw [hp]
      rw [hfind]
      apply ih
      unfold captureAttrOriginal
      by_cases hc : (alookup ((alookup m it.elId).getD []) it.attr).isSome = true
      · rw [if_pos hc]
        exact h
      · rw [if_neg hc]
        by_cases hel : el = it.elId
        · have hane : it.attr ≠ attr := fun hcon => hmatch ⟨hel.symm, hcon⟩
          rw [← hel]
          rw [alookup_aset_self]
          show alookup (aset ((alookup m el).getD []) it.attr it.val) attr = none
          rw [alookup_aset_ne _ _ _ _ (fun hcon => hane hcon.symm)]
          cases hm : alookup m el with
          | none => rfl
          | some mm =>
            have h2 : alookup mm attr = none := by rw [hm] at h; simpa using h
            exact h2
        · rw [alookup_aset_ne _ _ _ _ hel]
          exact h

theorem jsTrim_empty : jsTrim "" = "" := rfl

theorem ne_empty_of_trim {w : String} (h : jsTrim w ≠ "") : w ≠ "" := by
  intro hcon
  rw [hcon, jsTrim_empty] at h
  exact h rfl

/-- The `en` branch preserves the state invariant. -/
theorem StInv_en (st0 st : PageState)
    (hnd : st0.nodes.Pairwise (fun a b => a.id ≠ b.id))
    (hed : st0.els.Pairwise (fun a b => a.id ≠ b.id))
    (hinv : StInv st0 st) :
    StInv st0 { st with nodes := restoreEnNodes st.origText st.nodes,
                        els := restoreEnAttrs st.origAttrs st.els } := by
  obtain ⟨hnlen, hnrel, helen, herel, hcg⟩ := hinv
  have hedst : st.els.Pairwise (fun a b => a.id ≠ b.id) :=
    pairwise_ne_transfer AttrElem.id st0.els st.els helen
      (fun i x0 x a b => (herel i x0 x a b).1) hed
  have hdist := collect_items_pairwise st.els hedst
  refine ⟨?_, ?_, ?_, ?_, hcg⟩
  · show (st.nodes.map (restoreEnNode st.origText)).length = st0.nodes.length
    rw [List.length_map]
    exact hnlen
  · intro i n0 n h0 hx
    have hx2 : (st.nodes.map (restoreEnNode st.origText))[i]? = some n := hx
    rw [List.getElem?_map] at hx2
    cases hn : st.nodes[i]? with
    | none => rw [hn] at hx2; simp at hx2
    | some m =>
      rw [hn] at hx2
      obtain rfl : restoreEnNode st.origText m = n := by simpa using hx2
      obtain ⟨hid, hp, hnt, hval⟩ := hnrel i n0 m h0 hn
      have hf := restoreEnNode_fields st.origText m
      refine ⟨hf.1.trans hid, hf.2.1.trans hp, hf.2.2.trans hnt, ?_⟩
      cases ho : alookup st.origText n0.id with
      | some v =>
        rw [ho] at hval
        obtain ⟨hv0, htr0, hdisj⟩ := hval
        refine ⟨hv0, htr0, ?_⟩
        rw [restoreEnNode_value]
        by_cases htm : isTranslatableTextNode m = true
        · rw [if_pos htm, hid, ho]
          exact Or.inl hv0
        · rw [if_neg htm]
          exact hdisj
      | none =>
        rw [ho] at hval
        rw [restoreEnNode_value]
        by_cases htm : isTranslatableTextNode m = true
        · rw [if_pos htm, hid, ho]
          exact hval
        · rw [if_neg htm]
          exact hval
  · show ((collectTranslatableAttributes st.els).foldl
        (attrFoldStep (enRestoreCond st.origAttrs) (enRestoreVal st.origAttrs))
        st.els).length = st0.els.length
    rw [attrFold_length]
    exact helen
  · intro i e0 e2 h0 hx
    have hxf : ((collectTranslatableAttributes st.els).foldl
        (attrFoldStep (enRestoreCond st.origAttrs) (enRestoreVal st.origAttrs))
        st.els)[i]? = some e2 := hx
    obtain ⟨e, he, hid2, hm2, hn2⟩ := attrFold_fieldsAt _ _ _ _ _ _ hxf
    obtain ⟨hid, hms, hnt, hattrs⟩ := herel i e0 e h0 he
    refine ⟨hid2.trans hid, hm2.trans hms, hn2.trans hnt, ?_⟩
    intro attr hattr
    have hE := hattrs attr hattr
    unfold ERelAttr at hE ⊢
    cases ho : (alookup st.origAttrs e0.id).bind (fun mm => alookup mm attr) with
    | some v =>
      rw [ho] at hE
      obtain ⟨v0, he0, hvt, hvne, hm0, hn0, hdisj⟩ := hE
      refine ⟨v0, he0, hvt, hvne, hm0, hn0, ?_⟩
      have hw : ∃ w, alookup e.attrs attr = some w ∧ jsTrim w ≠ "" := by
        rcases hdisj with hL | hR
        · exact ⟨v0, hL, hvt ▸ hvne⟩
        · exact hR
      obtain ⟨w, hwl, hwt⟩ := hw
      have hwne : w ≠ "" := ne_empty_of_trim hwt
      have hitem : (⟨e.id, attr, jsTrim w⟩ : AttrItem) ∈ collectTranslatableAttributes st.els :=
        mem_collectAttrs_intro st.els e (mem_of_getElemSome _ _ _ he) (hms.trans hm0)
          (hnt.trans hn0) _ (mem_collectElAttrs_intro e attr w hattr hwl hwne hwt)
      have hcond : enRestoreCond st.origAttrs ⟨e.id, attr, jsTrim w⟩ = true := by
        unfold enRestoreCond
        dsimp only
        rw [hid, ho]
        rfl
      have hvalv : enRestoreVal st.origAttrs ⟨e.id, attr, jsTrim w⟩ = v := by
        unfold enRestoreVal
        dsimp only
        rw [hid, ho]
        rfl
      have happly := attrFold_lookup_of_match (enRestoreCond st.origAttrs)
        (enRestoreVal st.origAttrs) (collectTranslatableAttributes st.els) st.els i e e2
        he hxf hdist ⟨e.id, attr, jsTrim w⟩ hitem hcond rfl attr rfl
      rw [hvalv] at happly
      refine Or.inr ⟨v, happly, ?_⟩
      rw [hvt, jsTrim_idem]
      exact hvt ▸ hvne
    | none =>
      rw [ho] at hE
      have hno : ∀ x ∈ collectTranslatableAttributes st.els,
          ¬(enRestoreCond st.origAttrs x = true ∧ x.elId = e.id ∧ x.attr = attr) := by
        rintro x hxm ⟨hcx, hex, hax⟩
        unfold enRestoreCond at hcx
        rw [hex, hid, hax, ho] at hcx
        simp at hcx
      have happly := attrFold_lookup_of_nomatch (enRestoreCond st.origAttrs)
        (enRestoreVal st.origAttrs) (collectTranslatableAttributes st.els) st.els i e e2
        attr he hxf hdist hno
      rw [happly]
      exact hE

/-- A successful non-English `applyLanguage` pass preserves the state
invariant, for any good final language cache. -/
theorem StInv_trans_ok (st0 st : PageState) (lang2 : String)
    (lcF : List (String × String)) (orig2 : List (Nat × String))
    (origA2 : List (Nat × List (String × String)))
    (horig2 : orig2 = captureNodeOriginals st.origText (collectTextNodes st.nodes))
    (horigA2 : origA2 =
      captureAttrOriginals st.origAttrs (collectTranslatableAttributes st.els))
    (hnd : st0.nodes.Pairwise (fun a b => a.id ≠ b.id))
    (hed : st0.els.Pairwise (fun a b => a.id ≠ b.id))
    (hinv : StInv st0 st) (hlcF : GoodLC lcF) :
    StInv st0 { nodes := applyNodeTranslations orig2 lcF st.nodes,
                els := applyAttrTranslations lcF (collectTranslatableAttributes st.els) st.els,
                cache := aset st.cache lang2 lcF,
                origText := orig2,
                origAttrs := origA2 } := by
  obtain ⟨hnlen, hnrel, helen, herel, hcg⟩ := hinv
  have hndst : st.nodes.Pairwise (fun a b => a.id ≠ b.id) :=
    pairwise_ne_transfer TextNode.id st0.nodes st.nodes hnlen
      (fun i x0 x a b => (hnrel i x0 x a b).1) hnd
  have hedst : st.els.Pairwise (fun a b => a.id ≠ b.id) :=
    pairwise_ne_transfer AttrElem.id st0.els st.els helen
      (fun i x0 x a b => (herel i x0 x a b).1) hed
  have hdist := collect_items_pairwise st.els hedst
  refine ⟨?_, ?_, ?_, ?_, goodCache_aset _ _ _ hcg hlcF⟩
  · show (st.nodes.map (fun n => if isTranslatableTextNode n then
        applyNodeTranslation orig2 lcF n else n)).length = st0.nodes.length
    rw [List.length_map]
    exact hnlen
  · intro i n0 n2 h0 hx
    have hx2 : (st.nodes.map (fun n => if isTranslatableTextNode n then
        applyNodeTranslation orig2 lcF n else n))[i]? = some n2 := hx
    rw [List.getElem?_map] at hx2
    cases hn : st.nodes[i]? with
    | none => rw [hn] at hx2; simp at hx2
    | some m =>
      rw [hn] at hx2
      obtain rfl : (if isTranslatableTextNode m then applyNodeTranslation orig2 lcF m
          else m) = n2 := by simpa using hx2
      obtain ⟨hid, hp, hnt, hval⟩ := hnrel i n0 m h0 hn
      have hmemn : m ∈ st.nodes := mem_of_getElemSome _ _ _ hn
      by_cases htm : isTranslatableTextNode m = true
      · rw [if_pos htm]
        have hv : ∃ v, alookup orig2 n0.id = some v ∧ v = n0.value ∧
            isTranslatableTextNode n0 = true := by
          cases hol : alookup st.origText n0.id with
          | some v =>
            rw [hol] at hval
            exact ⟨v, horig2 ▸ alookup_captureNodeOriginals_some _ _ _ _ hol,
              hval.1, hval.2.1⟩
          | none =>
            rw [hol] at hval
            have h2 := alookup_captureNodeOriginals_none st.origText
              (collectTextNodes st.nodes) n0.id hol
            obtain ⟨n3, hfind⟩ := find_collect_some_id st.nodes m hmemn htm n0.id hid
            obtain ⟨heq3, -⟩ := find_in_collect_id st.nodes hndst m hmemn n0.id hid n3 hfind
            rw [horig2, h2, hfind]
            refine ⟨n3.value, rfl, ?_, ?_⟩
            · rw [heq3]
              exact hval
            · have hmv := (isTranslatable_iff m).mp htm
              exact translatable_rev n0 m hp hnt htm (hval ▸ hmv.1) (hval ▸ hmv.2.1)
        obtain ⟨v, hcap, hv0, htr0⟩ := hv
        have hvne : v ≠ "" := by
          rw [hv0]
          exact ((isTranslatable_iff n0).mp htr0).1
        have hktrim : jsTrim v ≠ "" := by
          rw [hv0]
          exact ((isTranslatable_iff n0).mp htr0).2.1
        have hcapm : alookup orig2 m.id = some v := by rw [hid]; exact hcap
        have ho : applyNodeOrig orig2 m = v := applyNodeOrig_of_some _ _ _ hcapm hvne
        have hfieldsA := applyNodeTranslation_fields orig2 lcF m
        refine ⟨hfieldsA.1.trans hid, hfieldsA.2.1.trans hp, hfieldsA.2.2.trans hnt, ?_⟩
        rw [hcap]
        refine ⟨hv0, htr0, ?_⟩
        unfold applyNodeTranslation
        rw [ho, if_neg hktrim]
        cases hlcv : alookup lcF (jsTrim v) with
        | some t =>
          dsimp only
          by_cases ht : t = ""
          · rw [if_pos ht]
            exact Or.inl hv0
          · rw [if_neg ht]
            rcases goodLC_lookup lcF hlcF _ t hlcv with he | hne2
            · exact absurd he ht
            · exact Or.inr hne2
        | none =>
          exact Or.inl hv0
      · rw [if_neg htm]
        refine ⟨hid, hp, hnt, ?_⟩
        cases hol : alookup st.origText n0.id with
        | some v =>
          rw [horig2, alookup_captureNodeOriginals_some _ _ _ _ hol]
          rw [hol] at hval
          exact hval
        | none =>
          rw [hol] at hval
          have h2 := alookup_captureNodeOriginals_none st.origText
            (collectTextNodes st.nodes) n0.id hol
          have hfnone := find_collect_none_id st.nodes hndst m hmemn n0.id hid
            (Bool.eq_false_iff.mpr htm)
          rw [horig2, h2, hfnone]
          exact hval
  · show ((collectTranslatableAttributes st.els).foldl
        (attrFoldStep (fun _ => true) (fun it => match alookup lcF it.val with
          | some t => if t = "" then it.val else t
          | none => it.val)) st.els).length = st0.els.length
    rw [attrFold_length]
    exact helen
  · intro i e0 e2 h0 hx
    have hxf : ((collectTranslatableAttributes st.els).foldl
        (attrFoldStep (fun _ => true) (fun it => match alookup lcF it.val with
          | some t => if t = "" then it.val else t
          | none => it.val)) st.els)[i]? = some e2 := hx
    obtain ⟨e, he, hid2, hm2, hn2⟩ := attrFold_fieldsAt _ _ _ _ _ _ hxf
    obtain ⟨hid, hms, hnt, hattrs⟩ := herel i e0 e h0 he
    have hgoodval : ∀ it : AttrItem, it ∈ collectTranslatableAttributes st.els →
        jsTrim (match alookup lcF it.val with
          | some t => if t = "" then it.val else t
          | none => it.val) ≠ "" := by
      intro it hitm
      obtain ⟨elx, -, -, -, hitx⟩ := mem_collectAttrs st.els it hitm
      obtain ⟨-, -, w, -, -, hwt, hwv⟩ := mem_collectElAttrs elx it hitx
      cases hlcv : alookup lcF it.val with
      | some t =>
        dsimp only
        by_cases ht : t = ""
        · rw [if_pos ht, hwv, jsTrim_idem]
          exact hwt
        · rcases goodLC_lookup lcF hlcF _ t hlcv with hemp | hne2
          · exact absurd hemp ht
          · rw [if_neg ht]
            exact hne2
      | none =>
        dsimp only
        rw [hwv, jsTrim_idem]
        exact hwt
    refine ⟨hid2.trans hid, hm2.trans hms, hn2.trans hnt, ?_⟩
    intro attr hattr
    have hE := hattrs attr hattr
    unfold ERelAttr at hE ⊢
    cases hol : (alookup st.origAttrs e0.id).bind (fun mm => alookup mm attr) with
    | some v =>
      rw [horigA2, captureAttrOriginals_some st.origAttrs _ e0.id attr v hol]
      rw [hol] at hE
      obtain ⟨v0, he0, hvt, hvne, hm0, hn0, hdisj⟩ := hE
      refine ⟨v0, he0, hvt, hvne, hm0, hn0, ?_⟩
      have hw : ∃ w, alookup e.attrs attr = some w ∧ jsTrim w ≠ "" := by
        rcases hdisj with hL | hR
        · exact ⟨v0, hL, hvt ▸ hvne⟩
        · exact hR
      obtain ⟨w, hwl, hwt⟩ := hw
      have hwne : w ≠ "" := ne_empty_of_trim hwt
      have hitem : (⟨e.id, attr, jsTrim w⟩ : AttrItem) ∈ collectTranslatableAttributes st.els :=
        mem_collectAttrs_intro st.els e (mem_of_getElemSome _ _ _ he) (hms.trans hm0)
          (hnt.trans hn0) _ (mem_collectElAttrs_intro e attr w hattr hwl hwne hwt)
      have happly := attrFold_lookup_of_match (fun _ => true)
        (fun it => match alookup lcF it.val with
          | some t => if t = "" then it.val else t
          | none => it.val)
        (collectTranslatableAttributes st.els) st.els i e e2 he hxf hdist
        ⟨e.id, attr, jsTrim w⟩ hitem rfl rfl attr rfl
      exact Or.inr ⟨_, happly, hgoodval _ hitem⟩
    | none =>
      rw [hol] at hE
      have h2 := captureAttrOriginals_none st.origAttrs
        (collectTranslatableAttributes st.els) e0.id attr hol
      rw [horigA2, h2]
      cases hfind : (collectTranslatableAttributes st.els).find?
          (fun x => (x.elId == e0.id) && (x.attr == attr)) with
      | some it =>
        have hitm := List.mem_of_find?_eq_some hfind
        have hpit := List.find?_some hfind
        have hitId : it.elId = e0.id ∧ it.attr = attr := by
          simpa only [Bool.and_eq_true, beq_iff_eq] using hpit
        obtain ⟨elx, helx, hmsx, hntx, hitx⟩ := mem_collectAttrs st.els it hitm
        obtain ⟨hxid, -, w, hwl, hwne, hwt, hwv⟩ := mem_collectElAttrs elx it hitx
        have helx_eq : elx = e := by
          by_cases hne2 : elx = e
          · exact hne2
          · exfalso
            have hne3 : elx.id ≠ e.id :=
              List.Pairwise.forall (by intro a b hr; exact hr.symm) hedst helx
                (mem_of_getElemSome _ _ _ he) hne2
            exact hne3 (hxid.symm.trans (hitId.1.trans hid.symm))
        rw [helx_eq] at hwl hmsx hntx
        rw [hitId.2] at hwl
        have happly := attrFold_lookup_of_match (fun _ => true)
          (fun x => match alookup lcF x.val with
            | some t => if t = "" then x.val else t
            | none => x.val)
          (collectTranslatableAttributes st.els) st.els i e e2 he hxf hdist it hitm rfl
          (hitId.1.trans hid.symm) attr hitId.2
        refine ⟨w, hE.symm.trans hwl, hwv, by show it.val ≠ ""; rw [hwv]; exact hwt,
          hms.symm.trans hmsx,
          hnt.symm.trans hntx, Or.inr ⟨_, happly, hgoodval _ hitm⟩⟩
      | none =>
        have hno : ∀ x ∈ collectTranslatableAttributes st.els,
            ¬((fun _ : AttrItem => true) x = true ∧ x.elId = e.id ∧ x.attr = attr) := by
          rintro x hxm ⟨-, hex, hax⟩
          have hfx := List.find?_eq_none.mp hfind x hxm
          apply hfx
          simp [hex, hid, hax]
        have happly := attrFold_lookup_of_nomatch (fun _ => true)
          (fun x => match alookup lcF x.val with
            | some t => if t = "" then x.val else t
            | none => x.val)
          (collectTranslatableAttributes st.els) st.els i e e2 attr he hxf hdist hno
        rw [happly]
        exact hE

theorem StInv_trans_fail (st0 st : PageState) (lang2 : String)
    (lcF : List (String × String)) (orig2 : List (Nat × String))
    (origA2 : List (Nat × List (String × String)))
    (horig2 : orig2 = captureNodeOriginals st.origText (collectTextNodes st.nodes))
    (horigA2 : origA2 =
      captureAttrOriginals st.origAttrs (collectTranslatableAttributes st.els))
    (hnd : st0.nodes.Pairwise (fun a b => a.id ≠ b.id))
    (hed : st0.els.Pairwise (fun a b => a.id ≠ b.id))
    (hinv : StInv st0 st) (hlcF : GoodLC lcF) :
    StInv st0 { st with cache := aset st.cache lang2 lcF,
                        origText := orig2,
                        origAttrs := origA2 } := by
  obtain ⟨hnlen, hnrel, helen, herel, hcg⟩ := hinv
  have hndst : st.nodes.Pairwise (fun a b => a.id ≠ b.id) :=
    pairwise_ne_transfer TextNode.id st0.nodes st.nodes hnlen
      (fun i x0 x a b => (hnrel i x0 x a b).1) hnd
  have hedst : st.els.Pairwise (fun a b => a.id ≠ b.id) :=
    pairwise_ne_transfer AttrElem.id st0.els st.els helen
      (fun i x0 x a b => (herel i x0 x a b).1) hed
  refine ⟨hnlen, ?_, helen, ?_, goodCache_aset _ _ _ hcg hlcF⟩
  · intro i n0 m h0 hx
    have hm : st.nodes[i]? = some m := hx
    obtain ⟨hid, hp, hnt, hval⟩ := hnrel i n0 m h0 hm
    have hmemn : m ∈ st.nodes := mem_of_getElemSome _ _ _ hm
    refine ⟨hid, hp, hnt, ?_⟩
    cases hol : alookup st.origText n0.id with
    | some v =>
      rw [horig2, alookup_captureNodeOriginals_some _ _ _ _ hol]
      rw [hol] at hval
      exact hval
    | none =>
      rw [hol] at hval
      have h2 := alookup_captureNodeOriginals_none st.origText
        (collectTextNodes st.nodes) n0.id hol
      rw [horig2, h2]
      cases hfind : (collectTextNodes st.nodes).find? (fun x => x.id == n0.id) with
      | some n3 =>
        obtain ⟨heq3, htr3⟩ := find_in_collect_id st.nodes hndst m hmemn n0.id hid n3 hfind
        refine ⟨?_, ?_, Or.inl hval⟩
        · show n3.value = n0.value
          rw [heq3]
          exact hval
        · have htm : isTranslatableTextNode m = true := heq3 ▸ htr3
          have hmv := (isTranslatable_iff m).mp htm
          exact translatable_rev n0 m hp hnt htm (hval ▸ hmv.1) (hval ▸ hmv.2.1)
      | none =>
        exact hval
  · intro i e0 e h0 hx
    have he : st.els[i]? = some e := hx
    obtain ⟨hid, hms, hnt, hattrs⟩ := herel i e0 e h0 he
    refine ⟨hid, hms, hnt, ?_⟩
    intro attr hattr
    have hE := hattrs attr hattr
    unfold ERelAttr at hE ⊢
    cases hol : (alookup st.origAttrs e0.id).bind (fun mm => alookup mm attr) with
    | some v =>
      rw [horigA2, captureAttrOriginals_some st.origAttrs _ e0.id attr v hol]
      rw [hol] at hE
      exact hE
    | none =>
      rw [hol] at hE
      have h2 := captureAttrOriginals_none st.origAttrs
        (collectTranslatableAttributes st.els) e0.id attr hol
      rw [horigA2, h2]
      cases hfind : (collectTranslatableAttributes st.els).find?
          (fun x => (x.elId == e0.id) && (x.attr == attr)) with
      | some it =>
        have hitm := List.mem_of_find?_eq_some hfind
        have hpit := List.find?_some hfind
        have hitId : it.elId = e0.id ∧ it.attr = attr := by
          simpa only [Bool.and_eq_true, beq_iff_eq] using hpit
        obtain ⟨elx, helx, hmsx, hntx, hitx⟩ := mem_collectAttrs st.els it hitm
        obtain ⟨hxid, -, w, hwl, hwne, hwt, hwv⟩ := mem_collectElAttrs elx it hitx
        have helx_eq : elx = e := by
          by_cases hne2 : elx = e
          · exact hne2
          · exfalso
            have hne3 : elx.id ≠ e.id :=
              List.Pairwise.forall (by intro a b hr; exact hr.symm) hedst helx
                (mem_of_getElemSome _ _ _ he) hne2
            exact hne3 (hxid.symm.trans (hitId.1.trans hid.symm))
        rw [helx_eq] at hwl hmsx hntx
        rw [hitId.2] at hwl
        refine ⟨w, hE.symm.trans hwl, hwv, by show it.val ≠ ""; rw [hwv]; exact hwt,
          hms.symm.trans hmsx, hnt.symm.trans hntx, Or.inl hwl⟩
      | none =>
        exact hE

theorem StInv_step (st0 st : PageState) (srv : Server) (lang0 : String)
    (hsrv : GoodServer srv)
    (hnd : st0.nodes.Pairwise (fun a b => a.id ≠ b.id))
    (hed : st0.els.Pairwise (fun a b => a.id ≠ b.id))
    (hinv : StInv st0 st) :
    StInv st0 (applyLanguage srv lang0 st).1 := by
  have hcg : GoodCache st.cache := hinv.2.2.2.2
  simp only [applyLanguage]
  by_cases hl : normLang lang0 = "en"
  · rw [if_pos hl]
    exact StInv_en st0 st hnd hed hinv
  · rw [if_neg hl]
    have hgood : GoodLC (runChunksAux srv (normLang lang0)
        (chunks80 (missingTexts ((alookup st.cache (normLang lang0)).getD []) st))
        ((alookup st.cache (normLang lang0)).getD [])).2.1 := by
      apply goodLC_runChunks
      · exact goodLC_getD _ _ hcg
      · intro c hc s hs
        exact mem_missing_trim _ st s ((mem_chunks80 _ c hc).1.mem hs)
      · exact hsrv
    cases hok : (runChunksAux srv (normLang lang0)
        (chunks80 (missingTexts ((alookup st.cache (normLang lang0)).getD []) st))
        ((alookup st.cache (normLang lang0)).getD [])).2.2 with
    | true =>
      rw [if_pos rfl]
      exact StInv_trans_ok st0 st (normLang lang0) _ _ _ rfl rfl hnd hed hinv hgood
    | false =>
      rw [if_neg (by simp)]
      exact StInv_trans_fail st0 st (normLang lang0) _ _ _ rfl rfl hnd hed hinv hgood

theorem goodServer_wSrvOk : GoodServer wSrvOk := by
  intro lang texts ts h
  have h2 : Except.ok (texts.map (fun _ => "X")) = Except.ok ts := h
  obtain rfl : texts.map (fun _ => "X") = ts := by injection h2
  intro t ht
  obtain ⟨x, -, rfl⟩ := List.mem_map.mp ht
  right
  decide

theorem StInv_init (st0 : PageState) (horig : st0.origText = [])
    (horigA : st0.origAttrs = []) (hcg : GoodCache st0.cache) : StInv st0 st0 := by
  refine ⟨rfl, ?_, rfl, ?_, hcg⟩
  · intro i n0 n h0 hx
    rw [h0] at hx
    obtain rfl : n0 = n := by injection hx
    refine ⟨rfl, rfl, rfl, ?_⟩
    rw [horig]
    exact rfl
  · intro i e0 e h0 hx
    rw [h0] at hx
    obtain rfl : e0 = e := by injection hx
    refine ⟨rfl, rfl, rfl, ?_⟩
    intro attr _
    unfold ERelAttr
    rw [horigA]
    exact rfl

theorem StInv_runCalls (st0 : PageState)
    (hnd : st0.nodes.Pairwise (fun a b => a.id ≠ b.id))
    (hed : st0.els.Pairwise (fun a b => a.id ≠ b.id)) :
    ∀ (calls : List (Server × String)) (st : PageState),
      (∀ p ∈ calls, GoodServer p.1) → StInv st0 st → StInv st0 (runCalls calls st) := by
  intro calls
  induction calls with
  | nil => exact fun st _ h => h
  | cons p calls ih =>
    intro st hgood hinv
    show StInv st0 (runCalls calls (applyLanguage p.1 p.2 st).1)
    exact ih _ (fun q hq => hgood q (List.mem_cons_of_mem _ hq))
      (StInv_step st0 st p.1 p.2 (hgood p (List.mem_cons_self _ _)) hnd hed hinv)

theorem restoreEnNode_exact (orig : List (Nat × String)) (n0 m : TextNode)
    (hrel : NRel orig n0 m) : (restoreEnNode orig m).value = n0.value := by
  obtain ⟨hid, hp, hnt, hval⟩ := hrel
  rw [restoreEnNode_value, hid]
  cases hol : alookup orig n0.id with
  | none =>
    rw [hol] at hval
    by_cases ht : isTranslatableTextNode m = true
    · rw [if_pos ht]
      exact hval
    · rw [if_neg ht]
      exact hval
  | some v =>
    rw [hol] at hval
    obtain ⟨hv, htr0, hd⟩ := hval
    have hfacts := (isTranslatable_iff n0).mp htr0
    have hmval : m.value ≠ "" ∧ jsTrim m.value ≠ "" := by
      rcases hd with hvv | hjt
      · rw [hvv]
        exact ⟨hfacts.1, hfacts.2.1⟩
      · exact ⟨ne_empty_of_trim hjt, hjt⟩
    have htm : isTranslatableTextNode m = true :=
      translatable_of n0 m hp hnt htr0 hmval.1 hmval.2
    rw [if_pos htm]
    exact hv

theorem restoreEnAttrs_exact (origA : List (Nat × List (String × String)))
    (els : List AttrElem) (hedst : els.Pairwise (fun a b => a.id ≠ b.id))
    (i : Nat) (e0 e e2 : AttrElem) (he : els[i]? = some e)
    (h2 : (restoreEnAttrs origA els)[i]? = some e2)
    (hrel : ERel origA e0 e) :
    ∀ attr ∈ ATTR_NAMES,
      alookup e2.attrs attr = alookup e0.attrs attr ∨
      ∃ v0, alookup e0.attrs attr = some v0 ∧
        alookup e2.attrs attr = some (jsTrim v0) := by
  obtain ⟨hid, hms, hnt, hattrs⟩ := hrel
  have hdist := collect_items_pairwise els hedst
  intro attr hattr
  have hE := hattrs attr hattr
  unfold ERelAttr at hE
  have hxf : ((collectTranslatableAttributes els).foldl
      (attrFoldStep (enRestoreCond origA) (enRestoreVal origA)) els)[i]? = some e2 := h2
  cases hcap : (alookup origA e0.id).bind (fun mm => alookup mm attr) with
  | some v =>
    rw [hcap] at hE
    obtain ⟨v0, he0, hvt, hvne, hm0, hn0, hdisj⟩ := hE
    right
    refine ⟨v0, he0, ?_⟩
    have hw : ∃ w, alookup e.attrs attr = some w ∧ jsTrim w ≠ "" := by
      rcases hdisj with hL | hR
      · refine ⟨v0, hL, ?_⟩
        rw [← hvt]
        exact hvne
      · exact hR
    obtain ⟨w, hwl, hwt⟩ := hw
    have hwne : w ≠ "" := ne_empty_of_trim hwt
    have hitem : (⟨e.id, attr, jsTrim w⟩ : AttrItem) ∈ collectTranslatableAttributes els :=
      mem_collectAttrs_intro els e (mem_of_getElemSome _ _ _ he) (hms.trans hm0)
        (hnt.trans hn0) _ (mem_collectElAttrs_intro e attr w hattr hwl hwne hwt)
    have hcond : enRestoreCond origA ⟨e.id, attr, jsTrim w⟩ = true := by
      unfold enRestoreCond
      show ((alookup origA e.id).bind (fun m => alookup m attr)).isSome = true
      rw [hid, hcap]
      rfl
    have happly := attrFold_lookup_of_match (enRestoreCond origA) (enRestoreVal origA)
      (collectTranslatableAttributes els) els i e e2 he hxf hdist
      ⟨e.id, attr, jsTrim w⟩ hitem hcond rfl attr rfl
    rw [happly]
    have hval : enRestoreVal origA ⟨e.id, attr, jsTrim w⟩ = v := by
      unfold enRestoreVal
      show ((alookup origA e.id).bind (fun m => alookup m attr)).getD "" = v
      rw [hid, hcap]
      rfl
    rw [hval, hvt]
  | none =>
    rw [hcap] at hE
    left
    have hno : ∀ x ∈ collectTranslatableAttributes els,
        ¬(enRestoreCond origA x = true ∧ x.elId = e.id ∧ x.attr = attr) := by
      rintro x hxm ⟨hcx, hex, hax⟩
      unfold enRestoreCond at hcx
      rw [hex, hax, hid, hcap] at hcx
      simp at hcx
    have happly := attrFold_lookup_of_nomatch (enRestoreCond origA) (enRestoreVal origA)
      (collectTranslatableAttributes els) els i e e2 attr he hxf hdist hno
    rw [happly]
    exact hE

/-- C2 (amended): switching the language to `en` restores every translated
text node to exactly its pre-translation value, and every translated
attribute to the trimmed pre-translation value — the strongest restoration
the script achieves.  Each weakening against the original claim is forced by
a branch of the counterexample: attributes come back trimmed because the
capture loop stores `val.trim()`; and the `GoodServer`/`GoodCache`
hypotheses (every translation empty or non-blank) are necessary because a
whitespace-only translation — from the backend or already in the stored
cache — blanks the node/attribute, the `en` pass then never collects it,
and nothing is restored at all.  The pristine-page hypotheses (no originals
captured yet, distinct node/element identities) say the sequence starts
from an untranslated page. -/
theorem applyLanguage_en_restores (st0 : PageState) (calls : List (Server × String))
    (srv : Server) (lang0 : String)
    (horig : st0.origText = []) (horigA : st0.origAttrs = [])
    (hnd : st0.nodes.Pairwise (fun a b => a.id ≠ b.id))
    (hed : st0.els.Pairwise (fun a b => a.id ≠ b.id))
    (hcg : GoodCache st0.cache)
    (hgood : ∀ p ∈ calls, GoodServer p.1)
    (hlang : normLang lang0 = "en") :
    ((applyLanguage srv lang0 (runCalls calls st0)).1.nodes.length = st0.nodes.length ∧
      (applyLanguage srv lang0 (runCalls calls st0)).1.els.length = st0.els.length) ∧
    (∀ (i : Nat) (n0 n : TextNode), st0.nodes[i]? = some n0 →
      (applyLanguage srv lang0 (runCalls calls st0)).1.nodes[i]? = some n →
      n.value = n0.value) ∧
    (∀ (i : Nat) (e0 e : AttrElem), st0.els[i]? = some e0 →
      (applyLanguage srv lang0 (runCalls calls st0)).1.els[i]? = some e →
      ∀ attr ∈ ATTR_NAMES,
        alookup e.attrs attr = alookup e0.attrs attr ∨
        ∃ v0, alookup e0.attrs attr = some v0 ∧
          alookup e.attrs attr = some (jsTrim v0)) := by
  have hS : StInv st0 (runCalls calls st0) :=
    StInv_runCalls st0 hnd hed calls st0 hgood (StInv_init st0 horig horigA hcg)
  obtain ⟨hnlen, hnrel, helen, herel, hcgS⟩ := hS
  have hedst : (runCalls calls st0).els.Pairwise (fun a b => a.id ≠ b.id) :=
    pairwise_ne_transfer AttrElem.id st0.els _ helen
      (fun i x0 x a b => (herel i x0 x a b).1) hed
  have hF : (applyLanguage srv lang0 (runCalls calls st0)).1 =
      { runCalls calls st0 with
        nodes := restoreEnNodes (runCalls calls st0).origText (runCalls calls st0).nodes,
        els := restoreEnAttrs (runCalls calls st0).origAttrs (runCalls calls st0).els } := by
    simp only [applyLanguage]
    rw [if_pos hlang]
  refine ⟨⟨?_, ?_⟩, ?_, ?_⟩
  · rw [hF]
    show ((runCalls calls st0).nodes.map
      (restoreEnNode (runCalls calls st0).origText)).length = st0.nodes.length
    rw [List.length_map]
    exact hnlen
  · rw [hF]
    show ((collectTranslatableAttributes (runCalls calls st0).els).foldl
      (attrFoldStep (enRestoreCond (runCalls calls st0).origAttrs)
        (enRestoreVal (runCalls calls st0).origAttrs))
      (runCalls calls st0).els).length = st0.els.length
    rw [attrFold_length]
    exact helen
  · intro i n0 n h0 hx
    rw [hF] at hx
    have hx2 : ((runCalls calls st0).nodes.map
        (restoreEnNode (runCalls calls st0).origText))[i]? = some n := hx
    rw [List.getElem?_map] at hx2
    cases hm : (runCalls calls st0).nodes[i]? with
    | none =>
      rw [hm] at hx2
      simp at hx2
    | some m =>
      rw [hm] at hx2
      obtain rfl : restoreEnNode (runCalls calls st0).origText m = n := by simpa using hx2
      exact restoreEnNode_exact _ n0 m (hnrel i n0 m h0 hm)
  · intro i e0 e2 h0 hx
    rw [hF] at hx
    have hx2 : (restoreEnAttrs (runCalls calls st0).origAttrs
        (runCalls calls st0).els)[i]? = some e2 := hx
    obtain ⟨e, he, -, -, -⟩ := attrFold_fieldsAt _ _ _ _ _ _ hx2
    exact restoreEnAttrs_exact _ _ hedst i e0 e e2 he hx2 (herel i e0 e h0 he)

/-- Witness for C2 (amended): on the concrete page, after translating to
Hindi and switching back to English, the restored node text is exactly
`"Hello"` and the restored placeholder is the trimmed original `"Name"`. -/
theorem applyLanguage_en_restores_witness :
    (({ id := 0, value := "Hello", parentTag := some "P",
        noTranslate := false } : TextNode).value = "Hello") ∧
    (alookup [("placeholder", "Name")] "placeholder" =
        alookup [("placeholder", " Name ")] "placeholder" ∨
      ∃ v0, alookup [("placeholder", " Name ")] "placeholder" = some v0 ∧
        alookup [("placeholder", "Name")] "placeholder" = some (jsTrim v0)) :=
  ⟨(applyLanguage_en_restores wStA [(wSrvOk, "hi")] wSrvOk "en" rfl rfl
      (by simp [wStA]) (by simp [wStA]) (by intro q hq; simp [wStA] at hq)
      (by intro p hp
          rw [List.mem_singleton] at hp
          rw [hp]
          exact goodServer_wSrvOk)
      rfl).2.1 0
      { id := 0, value := "Hello", parentTag := some "P", noTranslate := false }
      { id := 0, value := "Hello", parentTag := some "P", noTranslate := false } rfl rfl,
    (applyLanguage_en_restores wStA [(wSrvOk, "hi")] wSrvOk "en" rfl rfl
      (by simp [wStA]) (by simp [wStA]) (by intro q hq; simp [wStA] at hq)
      (by intro p hp
          rw [List.mem_singleton] at hp
          rw [hp]
          exact goodServer_wSrvOk)
      rfl).2.2 0
      { id := 1, matchesSelector := true, noTranslate := false,
        attrs := [("placeholder", " Name ")] }
      { id := 1, matchesSelector := true, noTranslate := false,
        attrs := [("placeholder", "Name")] } rfl rfl "placeholder" (by decide)⟩
